import Mathlib

/-!
# htmref: a shared-counter benchmark

A shallow embedding of `htmref.c`, the benchmark that increments one shared
counter from many threads with one of four strategies.

The definitions come first:

* the sequential functions `Clock_GetMonotonic`, `HtmrefPerfTest_Init`, the four
  strategy functions as one thread runs them, `HtmrefPerfTest_PrintStats` (with
  a model of the binary64 arithmetic of its throughput) and `main`;
* `HtmrefPerfTest_Run` and its `HtmrefPerfTest_ThreadStart` workers as an
  interleaving of single statements, with the environment (failing library
  calls, clock readings, spurious wakeups, transaction aborts) as events;
* the invariants of that interleaving.

The theorems follow.  C integers are mathematical integers with the wrap-around
written out.
-/

namespace Htmref

/-! ## C arithmetic -/

/-- Value of a mathematical integer stored in an `int64_t` (two's complement wrap). -/
def wrapInt64 (x : Int) : Int := (x + 2 ^ 63) % 2 ^ 64 - 2 ^ 63

/-- Value of a mathematical integer stored in an `int` (two's complement wrap). -/
def wrapInt32 (x : Int) : Int := (x + 2 ^ 31) % 2 ^ 32 - 2 ^ 31

/-- Conversion of an integer to `unsigned` (32 bits): reduction modulo `2 ^ 32`. -/
def toUnsigned (x : Int) : Nat := (x % 2 ^ 32).toNat

/-- The constant `USEC_PER_SEC`, the macro `1000000U`. -/
def USEC_PER_SEC : Nat := 1000000

/-! ## Data model -/

/-- The four increment routines a session's `worker_func` pointer can hold. -/
inductive HtmrefPerfTestFunc
  | HtmrefPerfTest_IntelTsx
  | HtmrefPerfTest_Atomic
  | HtmrefPerfTest_Addq
  | HtmrefPerfTest_Spinlock
  deriving DecidableEq, Repr

/-- The structure `struct _HtmrefPerfTest`.  `mutex` and `spin` hold whether the lock is
taken; the wait set of `cond` is the set of workers blocked in
`pthread_cond_wait` and lives in the workers' program counters; `worker_func`
is `none` for a null pointer; `counter` is `counter.value` (the padding holds
no data). -/
structure HtmrefPerfTest where
  mutex : Bool
  worker_func : Option HtmrefPerfTestFunc
  threads_active : Nat
  n_threads : Nat
  n_iterations : Nat
  begin_at : Int
  end_at : Int
  counter : Int
  spin : Bool
  deriving DecidableEq, Repr

/-- A `struct timespec` as filled in by `clock_gettime`. -/
structure Timespec where
  tv_sec : Int
  tv_nsec : Int
  deriving DecidableEq, Repr

/-! ## Clock -/

/-- The function `Clock_GetMonotonic`, as a function of the reading `clock_gettime` stored in
`ts`: `(ts.tv_sec * USEC_PER_SEC) + (ts.tv_nsec / 1000U)` in 64-bit signed
arithmetic, `/` truncating. -/
def Clock_GetMonotonic (ts : Timespec) : Int :=
  wrapInt64 (wrapInt64 (ts.tv_sec * USEC_PER_SEC) + Int.tdiv ts.tv_nsec 1000)

/-! ## Initialisation -/

/-- The function `HtmrefPerfTest_Init`: `memset` to zero, initialise the three
synchronisation objects (unlocked, nobody waiting), then store the three
arguments; the two `int` counts are converted to `unsigned`.  The first
argument is the previous content of `*test`. -/
def HtmrefPerfTest_Init (_test : HtmrefPerfTest) (worker_func : HtmrefPerfTestFunc)
    (n_threads n_iterations : Int) : HtmrefPerfTest :=
  let zeroed : HtmrefPerfTest :=
    { mutex := false, worker_func := none, threads_active := 0, n_threads := 0,
      n_iterations := 0, begin_at := 0, end_at := 0, counter := 0, spin := false }
  { zeroed with
    spin := false
    mutex := false
    worker_func := some worker_func
    n_threads := toUnsigned n_threads
    n_iterations := toUnsigned n_iterations }

/-! ## The strategies, run by one thread -/

/-- The statement `worker->counter.value++`: load, add one, store into the `int64_t`. -/
def incrementCounter (worker : HtmrefPerfTest) : HtmrefPerfTest :=
  { worker with counter := wrapInt64 (worker.counter + 1) }

/-- The builtin `__sync_fetch_and_add (&worker->counter.value, 1)`. -/
def sync_fetch_and_add (worker : HtmrefPerfTest) : HtmrefPerfTest :=
  { worker with counter := wrapInt64 (worker.counter + 1) }

/-- A `pthread_spin_lock` called by the only running thread: takes a free lock;
on a taken lock it spins for ever (`none`). -/
def pthread_spin_lock (worker : HtmrefPerfTest) : Option HtmrefPerfTest :=
  if worker.spin then none else some { worker with spin := true }

/-- The function `pthread_spin_unlock`. -/
def pthread_spin_unlock (worker : HtmrefPerfTest) : HtmrefPerfTest :=
  { worker with spin := false }

/-- The loop of `HtmrefPerfTest_Addq` from loop variable `i` on.  `i` is below
`n_iterations`, an `unsigned`, whenever it is incremented, so `i + 1` does not
wrap. -/
def HtmrefPerfTest_Addq.loop (worker : HtmrefPerfTest) (i : Nat) : HtmrefPerfTest :=
  if i < worker.n_iterations then
    HtmrefPerfTest_Addq.loop (incrementCounter worker) (i + 1)
  else worker
termination_by worker.n_iterations - i
decreasing_by simp only [incrementCounter]; omega

/-- The function `HtmrefPerfTest_Addq`. -/
def HtmrefPerfTest_Addq (worker : HtmrefPerfTest) : HtmrefPerfTest :=
  HtmrefPerfTest_Addq.loop worker 0

/-- The loop of `HtmrefPerfTest_Atomic` from loop variable `i` on. -/
def HtmrefPerfTest_Atomic.loop (worker : HtmrefPerfTest) (i : Nat) : HtmrefPerfTest :=
  if i < worker.n_iterations then
    HtmrefPerfTest_Atomic.loop (sync_fetch_and_add worker) (i + 1)
  else worker
termination_by worker.n_iterations - i
decreasing_by simp only [sync_fetch_and_add]; omega

/-- The function `HtmrefPerfTest_Atomic`. -/
def HtmrefPerfTest_Atomic (worker : HtmrefPerfTest) : HtmrefPerfTest :=
  HtmrefPerfTest_Atomic.loop worker 0

/-- The loop of `HtmrefPerfTest_Spinlock` from loop variable `i` on; `none`
when the thread never leaves `pthread_spin_lock`. -/
def HtmrefPerfTest_Spinlock.loop (worker : HtmrefPerfTest) (i : Nat) : Option HtmrefPerfTest :=
  if i < worker.n_iterations then
    match h : pthread_spin_lock worker with
    | none => none
    | some w =>
      HtmrefPerfTest_Spinlock.loop (pthread_spin_unlock (incrementCounter w)) (i + 1)
  else some worker
termination_by worker.n_iterations - i
decreasing_by
  unfold pthread_spin_lock at h
  split at h
  · simp at h
  · simp only [Option.some.injEq] at h
    subst h
    simp only [incrementCounter, pthread_spin_unlock]
    omega

/-- The function `HtmrefPerfTest_Spinlock`. -/
def HtmrefPerfTest_Spinlock (worker : HtmrefPerfTest) : Option HtmrefPerfTest :=
  HtmrefPerfTest_Spinlock.loop worker 0

/-- What became of the transaction opened by one call of `_xbegin`. -/
inductive TxOutcome
  /-- The call of `_xbegin` returned `_XBEGIN_STARTED` and `_xend` committed. -/
  | committed
  /-- The transaction did not start or aborted before `_xend`: its effects are
  discarded and `_xbegin` returns a status other than `_XBEGIN_STARTED`. -/
  | aborted
  deriving DecidableEq, Repr

/-- The loop of `HtmrefPerfTest_IntelTsx` from loop variable `i` on; `tx i` is
the fate of the transaction of iteration `i`. -/
def HtmrefPerfTest_IntelTsx.loop (tx : Nat → TxOutcome) (worker : HtmrefPerfTest) (i : Nat) :
    HtmrefPerfTest :=
  if i < worker.n_iterations then
    match tx i with
    | .committed => HtmrefPerfTest_IntelTsx.loop tx (incrementCounter worker) (i + 1)
    | .aborted => HtmrefPerfTest_IntelTsx.loop tx (sync_fetch_and_add worker) (i + 1)
  else worker
termination_by worker.n_iterations - i
decreasing_by
  all_goals first
    | (simp only [incrementCounter]; omega)
    | (simp only [sync_fetch_and_add]; omega)

/-- The function `HtmrefPerfTest_IntelTsx`. -/
def HtmrefPerfTest_IntelTsx (tx : Nat → TxOutcome) (worker : HtmrefPerfTest) : HtmrefPerfTest :=
  HtmrefPerfTest_IntelTsx.loop tx worker 0

/-- A call through the `worker_func` pointer by the only running thread. -/
def callWorkerFunc (tx : Nat → TxOutcome) (f : HtmrefPerfTestFunc) (worker : HtmrefPerfTest) :
    Option HtmrefPerfTest :=
  match f with
  | .HtmrefPerfTest_Addq => some (HtmrefPerfTest_Addq worker)
  | .HtmrefPerfTest_Atomic => some (HtmrefPerfTest_Atomic worker)
  | .HtmrefPerfTest_Spinlock => HtmrefPerfTest_Spinlock worker
  | .HtmrefPerfTest_IntelTsx => some (HtmrefPerfTest_IntelTsx tx worker)

/-! ## Binary64 arithmetic -/

/-- An IEEE 754 binary64 value (`double`): a finite number, an infinity, or a
NaN.  The sign of zero is not kept; a zero produced by converting the integer 0
is `+0.0`, the only zero the statistics divide by. -/
inductive Double
  | finite (q : ℚ)
  | posInf
  | negInf
  | nan
  deriving DecidableEq, Repr

/-- Round a non-negative rational to the nearest multiple of `2 ^ e`, ties to
the even multiple. -/
def roundToMultiple (q : ℚ) (e : Int) : ℚ :=
  let m : ℚ := q / (2 : ℚ) ^ e
  let fl : Int := ⌊m⌋
  let r : ℚ := m - fl
  let n : Int :=
    if r < 1 / 2 then fl
    else if 1 / 2 < r then fl + 1
    else if fl % 2 = 0 then fl else fl + 1
  (n : ℚ) * (2 : ℚ) ^ e

/-- Exponent of the unit in the last place of binary64 at the positive rational
`q`: 52 below the binade of `q`, and never below that of the subnormals. -/
def ulpExponent (q : ℚ) : Int := max (Int.log 2 q) (-1022) - 52

/-- Rounding of an exact result to binary64, to nearest, ties to even; a
magnitude that rounds to `2 ^ 1024` or more overflows to an infinity. -/
def roundDouble (q : ℚ) : Double :=
  if q = 0 then .finite 0
  else
    let r : ℚ := roundToMultiple |q| (ulpExponent |q|)
    if (2 : ℚ) ^ (1024 : Nat) ≤ r then (if 0 < q then .posInf else .negInf)
    else .finite (if 0 < q then r else -r)

/-- Conversion `(double)x` of an `int64_t`. -/
def Double.ofInt64 (x : Int) : Double := roundDouble x

/-- Division of two `double`s. -/
def Double.div : Double → Double → Double
  | .nan, _ => .nan
  | _, .nan => .nan
  | .finite x, .finite y =>
    if y = 0 then (if x = 0 then .nan else if 0 < x then .posInf else .negInf)
    else roundDouble (x / y)
  | .finite _, .posInf => .finite 0
  | .finite _, .negInf => .finite 0
  | .posInf, .finite y => if 0 ≤ y then .posInf else .negInf
  | .negInf, .finite y => if 0 ≤ y then .negInf else .posInf
  | _, _ => .nan

/-- Multiplication of two `double`s. -/
def Double.mul : Double → Double → Double
  | .nan, _ => .nan
  | _, .nan => .nan
  | .finite x, .finite y => roundDouble (x * y)
  | .finite x, .posInf => if x = 0 then .nan else if 0 < x then .posInf else .negInf
  | .finite x, .negInf => if x = 0 then .nan else if 0 < x then .negInf else .posInf
  | .posInf, .finite y => if y = 0 then .nan else if 0 < y then .posInf else .negInf
  | .negInf, .finite y => if y = 0 then .nan else if 0 < y then .negInf else .posInf
  | .posInf, .posInf => .posInf
  | .negInf, .negInf => .posInf
  | _, _ => .negInf

/-- The value is a finite number (`isfinite`). -/
def Double.isFinite : Double → Bool
  | .finite _ => true
  | _ => false

/-- The value is a number, finite or infinite, that is not below zero. -/
def Double.isNonneg : Double → Bool
  | .finite q => decide (0 ≤ q)
  | .posInf => true
  | _ => false

/-! ## Statistics -/

/-- The arguments `HtmrefPerfTest_PrintStats` passes to `printf`, in order. -/
structure StatsLine where
  command : String
  n_threads : Nat
  n_iterations : Nat
  expected : Int
  actual : Int
  per_second : Double
  sec : Nat
  usec : Nat
  deriving DecidableEq, Repr

/-- The variable `expected` in `HtmrefPerfTest_PrintStats`:
`(int64_t)test->n_threads * (int64_t)test->n_iterations`. -/
def HtmrefPerfTest_PrintStats.expected (test : HtmrefPerfTest) : Int :=
  wrapInt64 (wrapInt64 test.n_threads * wrapInt64 test.n_iterations)

/-- The variable `time_diff` in `HtmrefPerfTest_PrintStats`: `test->end_at - test->begin_at`. -/
def HtmrefPerfTest_PrintStats.time_diff (test : HtmrefPerfTest) : Int :=
  wrapInt64 (test.end_at - test.begin_at)

/-- The variable `sec` in `HtmrefPerfTest_PrintStats`: `time_diff / USEC_PER_SEC`, truncating. -/
def HtmrefPerfTest_PrintStats.sec (test : HtmrefPerfTest) : Int :=
  Int.tdiv (HtmrefPerfTest_PrintStats.time_diff test) USEC_PER_SEC

/-- The variable `usec` in `HtmrefPerfTest_PrintStats`: `time_diff % USEC_PER_SEC`, the
remainder of the truncating division. -/
def HtmrefPerfTest_PrintStats.usec (test : HtmrefPerfTest) : Int :=
  Int.tmod (HtmrefPerfTest_PrintStats.time_diff test) USEC_PER_SEC

/-- The variable `per_second` in `HtmrefPerfTest_PrintStats`:
`(double)expected / (double)time_diff * 1000000.0`; the literal is a binary64
number. -/
def HtmrefPerfTest_PrintStats.per_second (test : HtmrefPerfTest) : Double :=
  Double.mul
    (Double.div (Double.ofInt64 (HtmrefPerfTest_PrintStats.expected test))
      (Double.ofInt64 (HtmrefPerfTest_PrintStats.time_diff test)))
    (.finite 1000000)

/-- The function `HtmrefPerfTest_PrintStats`: the values handed to `printf`; the last two
are `(unsigned)sec` and `(unsigned)usec`. -/
def HtmrefPerfTest_PrintStats (test : HtmrefPerfTest) (command : String) (_run_number : Int) :
    StatsLine :=
  { command := command
    n_threads := test.n_threads
    n_iterations := test.n_iterations
    expected := HtmrefPerfTest_PrintStats.expected test
    actual := test.counter
    per_second := HtmrefPerfTest_PrintStats.per_second test
    sec := toUnsigned (HtmrefPerfTest_PrintStats.sec test)
    usec := toUnsigned (HtmrefPerfTest_PrintStats.usec test) }

/-- Decimal digits of `n`, most significant first, as `%u` prints them. -/
def fmt_u (n : Nat) : List Nat :=
  if n = 0 then [0] else (Nat.digits 10 n).reverse

/-- Decimal digits of `n` as `%06u` prints them: padded on the left with zeros
to at least six characters. -/
def fmt_06u (n : Nat) : List Nat :=
  List.replicate (6 - (fmt_u n).length) 0 ++ fmt_u n

/-- The number a reader takes from a decimal field `<ip>.<fp>`, both parts
given as digits, most significant first. -/
def readDecimal (ip fp : List Nat) : ℚ :=
  ((Nat.ofDigits 10 ip.reverse : Nat) : ℚ)
    + ((Nat.ofDigits 10 fp.reverse : Nat) : ℚ) / 10 ^ fp.length

/-! ## Command line -/

/-- The function `isspace` in the C locale. -/
def isspace (c : Char) : Bool :=
  c = ' ' || (9 ≤ c.toNat && c.toNat ≤ 13)

/-- The function `atoi`, as glibc computes it, `(int) strtol (nptr, NULL, 10)`: skip white
space, read an optional sign and the longest run of decimal digits, saturate
at the range of `long`, convert to `int`. -/
def atoi (nptr : String) : Int :=
  let cs := nptr.toList.dropWhile isspace
  let signed : Bool × List Char :=
    match cs with
    | '-' :: r => (true, r)
    | '+' :: r => (false, r)
    | r => (false, r)
  let magnitude : Nat :=
    (signed.2.takeWhile Char.isDigit).foldl (fun a c => 10 * a + (c.toNat - 48)) 0
  let value : Int := if signed.1 then -(magnitude : Int) else magnitude
  wrapInt32 (max (-(2 ^ 63)) (min value (2 ^ 63 - 1)))

/-- The `strcmp` chain of `main` on `argv [1]`. -/
def selectWorkerFunc (command : String) : Option HtmrefPerfTestFunc :=
  if command = "tsx" then some .HtmrefPerfTest_IntelTsx
  else if command = "atomic" then some .HtmrefPerfTest_Atomic
  else if command = "addq" then some .HtmrefPerfTest_Addq
  else if command = "spinlock" then some .HtmrefPerfTest_Spinlock
  else none

/-- How `main` ends. -/
inductive ExitStatus
  | EXIT_SUCCESS
  | EXIT_FAILURE
  /-- A call of `HtmrefPerfTest_Run` did not return (the process aborted or
  hangs), so `main` never reaches a `return`. -/
  | noReturn
  deriving DecidableEq, Repr

/-- What `main` did: its exit status, the sessions it handed to
`HtmrefPerfTest_Run` (each just initialised), and the lines it printed. -/
structure MainResult where
  status : ExitStatus
  started : List HtmrefPerfTest
  printed : List StatsLine
  deriving DecidableEq, Repr

/-- The `for (i = 0; i < n_runs; i++)` loop of `main`, with `remaining`
iterations to go.  `Run i t` is the session the `i`-th call of
`HtmrefPerfTest_Run` leaves when started on `t`, or `none` when it does not
return; `test` is the content of the local variable `test`, which
`HtmrefPerfTest_Destroy` does not change. -/
def main.loop (Run : Nat → HtmrefPerfTest → Option HtmrefPerfTest)
    (worker_func : HtmrefPerfTestFunc) (n_threads n_iterations : Int) (command : String) :
    (remaining : Nat) → (i : Nat) → (test : HtmrefPerfTest) → MainResult
  | 0, _, _ => { status := .EXIT_SUCCESS, started := [], printed := [] }
  | remaining + 1, i, test =>
    let initialised := HtmrefPerfTest_Init test worker_func n_threads n_iterations
    match Run i initialised with
    | none => { status := .noReturn, started := [initialised], printed := [] }
    | some finished =>
      let rest := main.loop Run worker_func n_threads n_iterations command remaining (i + 1)
        finished
      { status := rest.status
        started := initialised :: rest.started
        printed := HtmrefPerfTest_PrintStats finished command i :: rest.printed }

/-- The failure exits of `main`: nothing started, nothing printed on standard output. -/
def main.fail : MainResult :=
  { status := .EXIT_FAILURE, started := [], printed := [] }

/-- The function `main` on the argument vector `argv` (`argc` is its length, `argv [0]` the
program name).  `test` is whatever the uninitialised local variable holds. -/
def main (Run : Nat → HtmrefPerfTest → Option HtmrefPerfTest) (test : HtmrefPerfTest)
    (argv : List String) : MainResult :=
  let argc := argv.length
  if argc < 2 then main.fail
  else
    match selectWorkerFunc (argv.getD 1 "") with
    | none => main.fail
    | some worker_func =>
      let n_threads : Int := if argc > 2 then atoi (argv.getD 2 "") else 10
      if argc > 2 ∧ (n_threads ≤ 0 ∨ n_threads > 10000) then main.fail
      else
        let n_iterations : Int := if argc > 3 then atoi (argv.getD 3 "") else 10000000
        if argc > 3 ∧ n_iterations ≤ 0 then main.fail
        else
          let n_runs : Int := if argc > 4 then atoi (argv.getD 4 "") else 1
          if argc > 4 ∧ n_runs ≤ 0 then main.fail
          else
            main.loop Run worker_func n_threads n_iterations (argv.getD 1 "") n_runs.toNat 0 test

/-- The configuration errors `main` checks for, read off the argument vector:
no selector, an unknown selector, a thread count outside `1..10000`, an
iteration count `≤ 0`, a run count `≤ 0`. -/
def ConfigurationError (argv : List String) : Prop :=
  argv.length < 2 ∨
    (argv.getD 1 "" ≠ "tsx" ∧ argv.getD 1 "" ≠ "addq" ∧ argv.getD 1 "" ≠ "atomic" ∧
      argv.getD 1 "" ≠ "spinlock") ∨
    (2 < argv.length ∧ ¬ (1 ≤ atoi (argv.getD 2 "") ∧ atoi (argv.getD 2 "") ≤ 10000)) ∨
    (3 < argv.length ∧ atoi (argv.getD 3 "") ≤ 0) ∨
    (4 < argv.length ∧ atoi (argv.getD 4 "") ≤ 0)

/-! ## The run as interleaved threads

`HtmrefPerfTest_Run` and the threads it creates, one statement at a time.  A
state holds the shared session, the place the thread running
`HtmrefPerfTest_Run` has reached and, for every thread index, the place and the
locals of that worker.  An execution is a list of events; each event names the
thread that moves and what the environment answers. -/

/-- Places in `HtmrefPerfTest_ThreadStart` and in the strategy function it
calls.  A thread stands before the statement named. -/
inductive WorkerPc
  /-- No thread exists for this index. -/
  | notCreated
  /-- Before `pthread_mutex_lock (&worker->mutex)`. -/
  | mutexLock
  /-- The load of `worker->threads_active++`. -/
  | activeLoad
  /-- The store of `worker->threads_active++`. -/
  | activeStore
  /-- The call of `pthread_cond_wait`, which releases the mutex and blocks. -/
  | condWait
  /-- Asleep inside `pthread_cond_wait`. -/
  | blocked
  /-- Woken inside `pthread_cond_wait`, which retakes the mutex before it returns. -/
  | reacquire
  /-- Before `pthread_mutex_unlock (&worker->mutex)`. -/
  | mutexUnlock
  /-- Before `worker->worker_func (worker)`. -/
  | call
  /-- In `HtmrefPerfTest_Addq`: `i < worker->n_iterations`. -/
  | addqTest
  /-- In `HtmrefPerfTest_Addq`: the load of `worker->counter.value++`. -/
  | addqLoad
  /-- In `HtmrefPerfTest_Addq`: the store of `worker->counter.value++`. -/
  | addqStore
  /-- In `HtmrefPerfTest_Addq`: `i++`. -/
  | addqNext
  /-- In `HtmrefPerfTest_Atomic`: `i < worker->n_iterations`. -/
  | atomicTest
  /-- In `HtmrefPerfTest_Atomic`: `__sync_fetch_and_add`. -/
  | atomicAdd
  /-- In `HtmrefPerfTest_Atomic`: `i++`. -/
  | atomicNext
  /-- In `HtmrefPerfTest_Spinlock`: `i < worker->n_iterations`. -/
  | spinTest
  /-- In `HtmrefPerfTest_Spinlock`: `pthread_spin_lock`. -/
  | spinLock
  /-- In `HtmrefPerfTest_Spinlock`: the load of `worker->counter.value++`. -/
  | spinLoad
  /-- In `HtmrefPerfTest_Spinlock`: the store of `worker->counter.value++`. -/
  | spinStore
  /-- In `HtmrefPerfTest_Spinlock`: `pthread_spin_unlock`. -/
  | spinUnlock
  /-- In `HtmrefPerfTest_Spinlock`: `i++`. -/
  | spinNext
  /-- In `HtmrefPerfTest_IntelTsx`: `i < worker->n_iterations`. -/
  | tsxTest
  /-- In `HtmrefPerfTest_IntelTsx`: `_xbegin ()`. -/
  | xbegin
  /-- In `HtmrefPerfTest_IntelTsx`, in a transaction: the load of `worker->counter.value++`. -/
  | txLoad
  /-- In `HtmrefPerfTest_IntelTsx`, in a transaction: the store of
  `worker->counter.value++`, which stays in the transaction's write buffer. -/
  | txStore
  /-- In `HtmrefPerfTest_IntelTsx`, in a transaction: `_xend ()`, which publishes the buffer. -/
  | xend
  /-- In `HtmrefPerfTest_IntelTsx`, `else` branch: `__sync_fetch_and_add`. -/
  | fallbackAdd
  /-- In `HtmrefPerfTest_IntelTsx`: `i++`. -/
  | tsxNext
  /-- The strategy function and `HtmrefPerfTest_ThreadStart` have returned. -/
  | returned
  deriving DecidableEq, Repr

/-- A worker thread: its place, its loop variable `i`, and the register holding
the value it loaded for a `++` (inside a transaction, the buffered new value
once the store is done). -/
structure Worker where
  pc : WorkerPc
  i : Nat
  tmp : Int
  deriving DecidableEq, Repr

/-- Places in `HtmrefPerfTest_Run`. -/
inductive RunPc
  /-- Before `calloc (test->n_threads, sizeof (pthread_t))` and the check of its result. -/
  | calloc
  /-- The creation loop at loop variable `i`: `i < test->n_threads`, then `pthread_create`. -/
  | create (i : Nat)
  /-- Polling loop: `pthread_mutex_lock`. -/
  | pollLock
  /-- Polling loop: `again = (test->threads_active != test->n_threads)`. -/
  | pollRead
  /-- Polling loop: `pthread_mutex_unlock` and the test of `again`. -/
  | pollUnlock (again : Bool)
  /-- Before `test->begin_at = Clock_GetMonotonic ()`. -/
  | stampBegin
  /-- Before the `pthread_mutex_lock` that precedes the broadcast. -/
  | wakeLock
  /-- Before `pthread_cond_broadcast (&test->cond)`. -/
  | broadcast
  /-- Before the `pthread_mutex_unlock` that follows the broadcast. -/
  | wakeUnlock
  /-- The join loop at loop variable `i`: `i < test->n_threads`, then `pthread_join`. -/
  | join (i : Nat)
  /-- Before `test->end_at = Clock_GetMonotonic ()`. -/
  | stampEnd
  /-- After `free (threads)`: `HtmrefPerfTest_Run` has returned. -/
  | returned
  /-- After `abort ()` was called. -/
  | aborted
  deriving DecidableEq, Repr

/-- The whole process during one call of `HtmrefPerfTest_Run`. -/
structure System where
  test : HtmrefPerfTest
  run : RunPc
  workers : Nat → Worker

/-- One step of an execution. -/
inductive Event
  /-- The thread in `HtmrefPerfTest_Run` executes its next statement; a
  `calloc` or `pthread_create` there succeeds. -/
  | run
  /-- The next statement of `HtmrefPerfTest_Run` is `calloc` or
  `pthread_create`, and it fails. -/
  | runFails
  /-- The next statement of `HtmrefPerfTest_Run` reads the clock, and
  `clock_gettime` stores `ts`. -/
  | runClock (ts : Timespec)
  /-- Worker `k` executes its next statement. -/
  | worker (k : Nat)
  /-- Worker `k`, asleep in `pthread_cond_wait`, wakes up although nobody
  signalled the condition (POSIX allows such spurious wakeups). -/
  | spuriousWakeup (k : Nat)
  /-- The transaction of worker `k` does not start, or aborts: control
  continues after `_xbegin` with a status other than `_XBEGIN_STARTED`. -/
  | txAbort (k : Nat)
  deriving DecidableEq, Repr

/-- A worker thread as `pthread_create` starts it. -/
def Worker.fresh : Worker := { pc := .mutexLock, i := 0, tmp := 0 }

/-- The slot of a thread that does not exist. -/
def Worker.absent : Worker := { pc := .notCreated, i := 0, tmp := 0 }

/-- What a store to the counter by another thread does to a worker: a
transaction that has the counter in its read set is aborted by the hardware. -/
def abortConflicting (w : Worker) : Worker :=
  if w.pc = .txStore ∨ w.pc = .xend then { w with pc := .fallbackAdd } else w

/-- The next statement of a worker, as a function of the shared session and
the worker's own state: the new session, the new state of the worker, and
whether the statement stored to the counter.  `none` when the thread cannot
move (it does not exist, is blocked on the mutex or the condition, has
returned, or calls a null pointer).  The loop variable is below
`n_iterations`, an `unsigned`, whenever it is incremented, so `i + 1` does not
wrap. -/
def HtmrefPerfTest_ThreadStart.step (t : HtmrefPerfTest) (w : Worker) :
    Option (HtmrefPerfTest × Worker × Bool) :=
  match w.pc with
  | .notCreated => none
  | .mutexLock =>
    if t.mutex then none else some ({ t with mutex := true }, { w with pc := .activeLoad }, false)
  | .activeLoad => some (t, { w with pc := .activeStore, tmp := t.threads_active }, false)
  | .activeStore =>
    some ({ t with threads_active := toUnsigned (w.tmp + 1) }, { w with pc := .condWait }, false)
  | .condWait => some ({ t with mutex := false }, { w with pc := .blocked }, false)
  | .blocked => none
  | .reacquire =>
    if t.mutex then none else some ({ t with mutex := true }, { w with pc := .mutexUnlock }, false)
  | .mutexUnlock => some ({ t with mutex := false }, { w with pc := .call }, false)
  | .call =>
    match t.worker_func with
    | none => none
    | some .HtmrefPerfTest_Addq => some (t, { w with pc := .addqTest, i := 0 }, false)
    | some .HtmrefPerfTest_Atomic => some (t, { w with pc := .atomicTest, i := 0 }, false)
    | some .HtmrefPerfTest_Spinlock => some (t, { w with pc := .spinTest, i := 0 }, false)
    | some .HtmrefPerfTest_IntelTsx => some (t, { w with pc := .tsxTest, i := 0 }, false)
  | .addqTest =>
    some (t, { w with pc := if w.i < t.n_iterations then .addqLoad else .returned }, false)
  | .addqLoad => some (t, { w with pc := .addqStore, tmp := t.counter }, false)
  | .addqStore =>
    some ({ t with counter := wrapInt64 (w.tmp + 1) }, { w with pc := .addqNext }, true)
  | .addqNext => some (t, { w with pc := .addqTest, i := w.i + 1 }, false)
  | .atomicTest =>
    some (t, { w with pc := if w.i < t.n_iterations then .atomicAdd else .returned }, false)
  | .atomicAdd =>
    some ({ t with counter := wrapInt64 (t.counter + 1) }, { w with pc := .atomicNext }, true)
  | .atomicNext => some (t, { w with pc := .atomicTest, i := w.i + 1 }, false)
  | .spinTest =>
    some (t, { w with pc := if w.i < t.n_iterations then .spinLock else .returned }, false)
  | .spinLock =>
    if t.spin then some (t, w, false)
    else some ({ t with spin := true }, { w with pc := .spinLoad }, false)
  | .spinLoad => some (t, { w with pc := .spinStore, tmp := t.counter }, false)
  | .spinStore =>
    some ({ t with counter := wrapInt64 (w.tmp + 1) }, { w with pc := .spinUnlock }, true)
  | .spinUnlock => some ({ t with spin := false }, { w with pc := .spinNext }, false)
  | .spinNext => some (t, { w with pc := .spinTest, i := w.i + 1 }, false)
  | .tsxTest =>
    some (t, { w with pc := if w.i < t.n_iterations then .xbegin else .returned }, false)
  | .xbegin => some (t, { w with pc := .txLoad }, false)
  | .txLoad => some (t, { w with pc := .txStore, tmp := t.counter }, false)
  | .txStore => some (t, { w with pc := .xend, tmp := wrapInt64 (w.tmp + 1) }, false)
  | .xend => some ({ t with counter := w.tmp }, { w with pc := .tsxNext }, true)
  | .fallbackAdd =>
    some ({ t with counter := wrapInt64 (t.counter + 1) }, { w with pc := .tsxNext }, true)
  | .tsxNext => some (t, { w with pc := .tsxTest, i := w.i + 1 }, false)
  | .returned => none

/-- What a statement of another thread does to a worker: nothing, unless it
stored to the counter. -/
def bystander (stored : Bool) (w : Worker) : Worker :=
  if stored then abortConflicting w else w

/-- Worker `k` executes its next statement; a store to the counter aborts the
conflicting transactions of the other workers. -/
def workerStep (s : System) (k : Nat) : Option System :=
  match HtmrefPerfTest_ThreadStart.step s.test (s.workers k) with
  | none => none
  | some (t, w, stored) =>
    some { test := t
           run := s.run
           workers := fun j => if j = k then w else bystander stored (s.workers j) }

/-- The next statement of `HtmrefPerfTest_Run`.  `none` when the event does
not fit the statement or the thread is blocked (on the mutex, or in
`pthread_join` on a thread that has not returned). -/
def HtmrefPerfTest_Run.step (s : System) (ev : Event) : Option System :=
  match s.run, ev with
  | .calloc, .run => some { s with run := .create 0 }
  | .calloc, .runFails => some { s with run := .aborted }
  | .create i, .run =>
    if i < s.test.n_threads then
      some { s with
        run := .create (i + 1)
        workers := fun j => if j = i then Worker.fresh else s.workers j }
    else some { s with run := .pollLock }
  | .create i, .runFails =>
    if i < s.test.n_threads then some { s with run := .create (i + 1) } else none
  | .pollLock, .run =>
    if s.test.mutex then none
    else some { s with test := { s.test with mutex := true }, run := .pollRead }
  | .pollRead, .run =>
    some { s with run := .pollUnlock (decide (s.test.threads_active ≠ s.test.n_threads)) }
  | .pollUnlock again, .run =>
    some { s with
      test := { s.test with mutex := false }
      run := if again then .pollLock else .stampBegin }
  | .stampBegin, .runClock ts =>
    some { s with test := { s.test with begin_at := Clock_GetMonotonic ts }, run := .wakeLock }
  | .wakeLock, .run =>
    if s.test.mutex then none
    else some { s with test := { s.test with mutex := true }, run := .broadcast }
  | .broadcast, .run =>
    some { s with
      run := .wakeUnlock
      workers := fun j =>
        if (s.workers j).pc = .blocked then { s.workers j with pc := .reacquire }
        else s.workers j }
  | .wakeUnlock, .run =>
    some { s with test := { s.test with mutex := false }, run := .join 0 }
  | .join i, .run =>
    if i < s.test.n_threads then
      if (s.workers i).pc = .returned then some { s with run := .join (i + 1) } else none
    else some { s with run := .stampEnd }
  | .stampEnd, .runClock ts =>
    some { s with test := { s.test with end_at := Clock_GetMonotonic ts }, run := .returned }
  | _, _ => none

/-- One event. -/
def step (s : System) (ev : Event) : Option System :=
  match ev with
  | .run => HtmrefPerfTest_Run.step s .run
  | .runFails => HtmrefPerfTest_Run.step s .runFails
  | .runClock ts => HtmrefPerfTest_Run.step s (.runClock ts)
  | .worker k => workerStep s k
  | .spuriousWakeup k =>
    if (s.workers k).pc = .blocked then
      some { s with
        workers := fun j => if j = k then { s.workers k with pc := .reacquire } else s.workers j }
    else none
  | .txAbort k =>
    if (s.workers k).pc = .xbegin ∨ (s.workers k).pc = .txLoad ∨ (s.workers k).pc = .txStore
        ∨ (s.workers k).pc = .xend then
      some { s with
        workers := fun j => if j = k then { s.workers k with pc := .fallbackAdd } else s.workers j }
    else none

/-- The state an execution reaches; `none` when some event cannot happen
where it stands. -/
def execute (s : System) : List Event → Option System
  | [] => some s
  | ev :: rest =>
    match step s ev with
    | none => none
    | some s' => execute s' rest

/-- The process at the call of `HtmrefPerfTest_Run (&test)`: no worker exists. -/
def initial (test : HtmrefPerfTest) : System :=
  { test := test, run := .calloc, workers := fun _ => Worker.absent }

/-- Whether `HtmrefPerfTest_Run` has stored `begin_at`. -/
def RunPc.begun : RunPc → Bool
  | .wakeLock | .broadcast | .wakeUnlock | .join _ | .stampEnd | .returned => true
  | _ => false

/-- Whether `HtmrefPerfTest_Run` has found `threads_active == n_threads`, stored
`begin_at` and broadcast the condition. -/
def RunPc.released : RunPc → Bool
  | .wakeUnlock | .join _ | .stampEnd | .returned => true
  | _ => false

/-- The worker has stored its increment of `threads_active`. -/
def WorkerPc.registered : WorkerPc → Bool
  | .notCreated | .mutexLock | .activeLoad | .activeStore => false
  | _ => true

/-- The worker has returned from `pthread_cond_wait`. -/
def WorkerPc.pastWait : WorkerPc → Bool
  | .notCreated | .mutexLock | .activeLoad | .activeStore | .condWait | .blocked
  | .reacquire => false
  | _ => true

/-! ## Invariants of the run -/

/-- Sum of `f k` over the thread indices `k < n`. -/
def total (f : Nat → Int) : Nat → Int
  | 0 => 0
  | n + 1 => total f n + f n

/-- The worker holds `mutex`. -/
def WorkerPc.holdsMutex : WorkerPc → Bool
  | .activeLoad | .activeStore | .condWait | .mutexUnlock => true
  | _ => false

/-- The thread in `HtmrefPerfTest_Run` holds `mutex`. -/
def RunPc.holdsMutex : RunPc → Bool
  | .pollRead | .pollUnlock _ | .broadcast | .wakeUnlock => true
  | _ => false

/-- The worker holds `spin`. -/
def WorkerPc.holdsSpin : WorkerPc → Bool
  | .spinLoad | .spinStore | .spinUnlock => true
  | _ => false

/-- The polling loop has read `threads_active == n_threads`. -/
def RunPc.observed : RunPc → Bool
  | .pollUnlock false | .stampBegin | .wakeLock | .broadcast | .wakeUnlock | .join _
  | .stampEnd | .returned => true
  | _ => false

/-- The worker has been woken from `pthread_cond_wait`. -/
def WorkerPc.woken : WorkerPc → Bool
  | .notCreated | .mutexLock | .activeLoad | .activeStore | .condWait | .blocked => false
  | _ => true

/-- Thread indices below this bound may have a thread: the loop variable of
the creation loop, and `n` once that loop is over. -/
def RunPc.createIndex (n : Nat) : RunPc → Nat
  | .calloc | .aborted => 0
  | .create i => i
  | _ => n

/-- The strategy function a place belongs to. -/
def WorkerPc.func : WorkerPc → Option HtmrefPerfTestFunc
  | .addqTest | .addqLoad | .addqStore | .addqNext => some .HtmrefPerfTest_Addq
  | .atomicTest | .atomicAdd | .atomicNext => some .HtmrefPerfTest_Atomic
  | .spinTest | .spinLock | .spinLoad | .spinStore | .spinUnlock | .spinNext =>
    some .HtmrefPerfTest_Spinlock
  | .tsxTest | .xbegin | .txLoad | .txStore | .xend | .fallbackAdd | .tsxNext =>
    some .HtmrefPerfTest_IntelTsx
  | _ => none

/-- Number of increments of the counter the worker has completed. -/
def Worker.increments (w : Worker) : Int :=
  match w.pc with
  | .notCreated | .mutexLock | .activeLoad | .activeStore | .condWait | .blocked | .reacquire
  | .mutexUnlock | .call => 0
  | .addqNext | .atomicNext | .spinUnlock | .spinNext | .tsxNext => w.i + 1
  | _ => w.i

/-- The loop variable of the worker is where its place says: at most `n` at the
loop test, below `n` in the loop body, `n` after the loop. -/
def Worker.inBounds (n : Nat) (w : Worker) : Prop :=
  match w.pc with
  | .notCreated | .mutexLock | .activeLoad | .activeStore | .condWait | .blocked | .reacquire
  | .mutexUnlock | .call => True
  | .addqTest | .atomicTest | .spinTest | .tsxTest => w.i ≤ n
  | .returned => w.i = n
  | _ => w.i < n

/-- What every state of a run of `n_threads` workers satisfies, whatever the
strategy: the configuration is untouched, threads exist only below the
creation index, `mutex` has at most one holder, `threads_active` counts the
workers that have registered, and the join loop only moves past threads that
have returned. -/
structure Inv (n_threads n_iterations : Nat) (f : HtmrefPerfTestFunc) (s : System) : Prop where
  n_threads_eq : s.test.n_threads = n_threads
  n_iterations_eq : s.test.n_iterations = n_iterations
  worker_func_eq : s.test.worker_func = some f
  small : n_threads < 2 ^ 32
  createLe : s.run.createIndex n_threads ≤ n_threads
  absent : ∀ k, s.run.createIndex n_threads ≤ k → (s.workers k).pc = .notCreated
  mutexFree : s.test.mutex = false →
    s.run.holdsMutex = false ∧ ∀ k, (s.workers k).pc.holdsMutex = false
  mutexRun : s.run.holdsMutex = true → ∀ k, (s.workers k).pc.holdsMutex = false
  mutexExcl : ∀ j k, j ≠ k → (s.workers j).pc.holdsMutex = true →
    (s.workers k).pc.holdsMutex = false
  activeTmp : ∀ k, (s.workers k).pc = .activeStore → (s.workers k).tmp = s.test.threads_active
  active : (s.test.threads_active : Int)
    = total (fun k => if (s.workers k).pc.registered then 1 else 0) n_threads
  observed : s.run.observed = true → ∀ k, k < n_threads → (s.workers k).pc.registered = true
  joined : ∀ i, s.run = .join i → ∀ k, k < i → (s.workers k).pc = .returned
  finished : s.run = .stampEnd ∨ s.run = .returned →
    ∀ k, k < n_threads → (s.workers k).pc = .returned

/-- What every state of a run with a strategy other than
`HtmrefPerfTest_Addq` satisfies in addition: workers are in the code of the
chosen strategy, `spin` has at most one holder, a loaded value about to be
stored is still the counter, and the counter is the number of increments the
workers have completed. -/
structure CounterInv (n_threads n_iterations : Nat) (f : HtmrefPerfTestFunc) (s : System) :
    Prop where
  funcs : ∀ k, (s.workers k).pc.func = none ∨ (s.workers k).pc.func = some f
  bounds : ∀ k, (s.workers k).inBounds n_iterations
  spinFree : s.test.spin = false → ∀ k, (s.workers k).pc.holdsSpin = false
  spinExcl : ∀ j k, j ≠ k → (s.workers j).pc.holdsSpin = true →
    (s.workers k).pc.holdsSpin = false
  spinTmp : ∀ k, (s.workers k).pc = .spinStore → (s.workers k).tmp = s.test.counter
  txTmp : ∀ k, (s.workers k).pc = .txStore → (s.workers k).tmp = s.test.counter
  xendTmp : ∀ k, (s.workers k).pc = .xend → (s.workers k).tmp = wrapInt64 (s.test.counter + 1)
  sum : s.test.counter = total (fun k => (s.workers k).increments) n_threads

/-- No event of the execution is a spurious wakeup. -/
def noSpuriousWakeup : List Event → Bool
  | [] => true
  | .spuriousWakeup _ :: _ => false
  | _ :: rest => noSpuriousWakeup rest

/-- Some `pthread_create` of the run has failed: a thread index the creation
loop has passed has no thread. -/
def CreateFailed (s : System) : Prop :=
  ∃ k, k < s.test.n_threads ∧ k < s.run.createIndex s.test.n_threads ∧
    (s.workers k).pc = .notCreated

/-- What a step that leaves a worker's part in the counting unchanged preserves. -/
def SameWorker (I : Nat) (w w' : Worker) : Prop :=
  w'.pc.func = w.pc.func ∧ (w.inBounds I → w'.inBounds I) ∧
    w'.pc.holdsSpin = w.pc.holdsSpin ∧ w'.increments = w.increments ∧
    (w'.pc = .spinStore ∨ w'.pc = .txStore ∨ w'.pc = .xend → w' = w)

/-- Every worker that has been woken from `pthread_cond_wait` was woken by the
broadcast. -/
def Barrier (s : System) : Prop :=
  ∀ k, (s.workers k).pc.woken = true → s.run.released = true

/-- An execution of two transactional workers with one iteration each: both
load the counter inside their transactions, worker 1 commits first, the
hardware aborts the transaction of worker 0, and worker 0 takes the fallback. -/
def tsxSchedule : List Event :=
  [.run, .run, .run, .run,
   .worker 0, .worker 0, .worker 0, .worker 0,
   .worker 1, .worker 1, .worker 1, .worker 1,
   .run, .run, .run, .runClock ⟨10, 0⟩, .run, .run, .run,
   .worker 1, .worker 1, .worker 0, .worker 0,
   .worker 0, .worker 1, .worker 0, .worker 1, .worker 0, .worker 1, .worker 0, .worker 1,
   .worker 1, .worker 1, .worker 0, .worker 0, .worker 0, .worker 1, .worker 1,
   .run, .run, .run, .runClock ⟨10, 5000⟩]

/-- The clock readings of an execution, in order. -/
def clockReadings : List Event → List Timespec
  | [] => []
  | .runClock ts :: rest => ts :: clockReadings rest
  | _ :: rest => clockReadings rest

/-- How far `HtmrefPerfTest_Run` is with its two timestamps: 0 before
`begin_at` is stored, 1 between the two stores, 2 once `end_at` is stored. -/
def RunPc.stamps : RunPc → Nat
  | .wakeLock | .broadcast | .wakeUnlock | .join _ | .stampEnd => 1
  | .returned => 2
  | _ => 0

/-- The timestamps stored in the session are the clock readings taken so far. -/
def Stamped (s : System) (readings : List Timespec) : Prop :=
  (s.run.stamps = 0 → readings = []) ∧
    (s.run.stamps = 1 → ∃ first, readings = [first] ∧
      s.test.begin_at = Clock_GetMonotonic first) ∧
    (s.run.stamps = 2 → ∃ first second, readings = [first, second] ∧
      s.test.begin_at = Clock_GetMonotonic first ∧ s.test.end_at = Clock_GetMonotonic second)

end Htmref

/-! # Theorems -/

namespace Htmref

/-! ## Arithmetic helpers -/

theorem wrapInt64_of_range {x : Int} (h1 : -(2 ^ 63) ≤ x) (h2 : x < 2 ^ 63) : wrapInt64 x = x := by
  unfold wrapInt64
  omega

theorem toUnsigned_of_range {x : Int} (h1 : 0 ≤ x) (h2 : x < 2 ^ 32) :
    (toUnsigned x : Int) = x := by
  unfold toUnsigned
  omega

/-! ## Clock -/

theorem Clock_GetMonotonic_eq (ts : Timespec) (hs : 0 ≤ ts.tv_sec) (hn : 0 ≤ ts.tv_nsec)
    (hfit : ts.tv_sec * 1000000 + ts.tv_nsec / 1000 < 2 ^ 63) :
    Clock_GetMonotonic ts = ts.tv_sec * 1000000 + ts.tv_nsec / 1000 := by
  unfold Clock_GetMonotonic USEC_PER_SEC
  have hq : Int.tdiv ts.tv_nsec 1000 = ts.tv_nsec / 1000 :=
    Int.tdiv_eq_ediv hn (by norm_num)
  rw [hq]
  have h0 : 0 ≤ ts.tv_nsec / 1000 := Int.ediv_nonneg hn (by norm_num)
  have h1 : wrapInt64 (ts.tv_sec * ((1000000 : Nat) : Int)) = ts.tv_sec * 1000000 := by
    apply wrapInt64_of_range <;> push_cast <;> omega
  rw [h1]
  apply wrapInt64_of_range <;> omega

/-! ## Statistics -/

theorem expected_of_small (test : HtmrefPerfTest)
    (hT : test.n_threads < 2 ^ 31) (hI : test.n_iterations < 2 ^ 31) :
    HtmrefPerfTest_PrintStats.expected test = (test.n_threads : Int) * test.n_iterations := by
  unfold HtmrefPerfTest_PrintStats.expected
  have hT0 : (0 : Int) ≤ test.n_threads := Int.natCast_nonneg _
  have hI0 : (0 : Int) ≤ test.n_iterations := Int.natCast_nonneg _
  have hT1 : (test.n_threads : Int) ≤ 2 ^ 31 := by omega
  have hI1 : (test.n_iterations : Int) ≤ 2 ^ 31 := by omega
  rw [wrapInt64_of_range (x := (test.n_threads : Int)) (by omega) (by omega),
    wrapInt64_of_range (x := (test.n_iterations : Int)) (by omega) (by omega)]
  have hp0 : (0 : Int) ≤ (test.n_threads : Int) * test.n_iterations := mul_nonneg hT0 hI0
  have hp1 : (test.n_threads : Int) * test.n_iterations ≤ 2 ^ 31 * 2 ^ 31 :=
    mul_le_mul hT1 hI1 hI0 (by norm_num)
  apply wrapInt64_of_range
  · omega
  · have : (2 : Int) ^ 31 * 2 ^ 31 < 2 ^ 63 := by norm_num
    omega

theorem Init_fields (prior : HtmrefPerfTest) (worker_func : HtmrefPerfTestFunc)
    (n_threads n_iterations : Int)
    (hT : 0 < n_threads ∧ n_threads ≤ 2 ^ 31 - 1)
    (hI : 0 < n_iterations ∧ n_iterations ≤ 2 ^ 31 - 1) :
    ((HtmrefPerfTest_Init prior worker_func n_threads n_iterations).n_threads : Int) = n_threads ∧
    ((HtmrefPerfTest_Init prior worker_func n_threads n_iterations).n_iterations : Int)
      = n_iterations := by
  simp only [HtmrefPerfTest_Init]
  constructor <;> apply toUnsigned_of_range <;> omega

/-- C4: for a session whose `n_threads` is in `1..10000` and whose
`n_iterations` is in `1..2^31-1`, the `expected` value that
`HtmrefPerfTest_PrintStats` prints is the mathematical product of the two, the
64-bit multiplication not wrapping; for a session initialised with 4 threads and
100000 iterations it is 400000. -/
theorem PrintStats_expected_is_product (test : HtmrefPerfTest) (command : String)
    (run_number : Int)
    (hT : 1 ≤ test.n_threads ∧ test.n_threads ≤ 10000)
    (hI : 1 ≤ test.n_iterations ∧ test.n_iterations ≤ 2 ^ 31 - 1) :
    (HtmrefPerfTest_PrintStats test command run_number).expected
        = (test.n_threads : Int) * (test.n_iterations : Int) ∧
      -(2 ^ 63) ≤ (test.n_threads : Int) * (test.n_iterations : Int) ∧
      (test.n_threads : Int) * (test.n_iterations : Int) < 2 ^ 63 ∧
      ∀ (prior : HtmrefPerfTest) (worker_func : HtmrefPerfTestFunc),
        (HtmrefPerfTest_PrintStats (HtmrefPerfTest_Init prior worker_func 4 100000) command
          run_number).expected = 400000 := by
  have hT0 : (0 : Int) ≤ test.n_threads := Int.natCast_nonneg _
  have hI0 : (0 : Int) ≤ test.n_iterations := Int.natCast_nonneg _
  have hT1 : (test.n_threads : Int) ≤ 10000 := by omega
  have hI1 : (test.n_iterations : Int) ≤ 2 ^ 31 := by omega
  have hp0 : (0 : Int) ≤ (test.n_threads : Int) * test.n_iterations := mul_nonneg hT0 hI0
  have hp1 : (test.n_threads : Int) * test.n_iterations ≤ 10000 * 2 ^ 31 :=
    mul_le_mul hT1 hI1 hI0 (by norm_num)
  refine ⟨?_, by omega, ?_, ?_⟩
  · exact expected_of_small test (by omega) (by omega)
  · have : (10000 : Int) * 2 ^ 31 < 2 ^ 63 := by norm_num
    omega
  · intro prior worker_func
    have hf := Init_fields prior worker_func 4 100000 (by norm_num) (by norm_num)
    have he := expected_of_small (HtmrefPerfTest_Init prior worker_func 4 100000)
      (by omega) (by omega)
    simp only [HtmrefPerfTest_PrintStats]
    rw [he, hf.1, hf.2]
    norm_num

theorem PrintStats_expected_is_product_witness :
    (HtmrefPerfTest_PrintStats
        (HtmrefPerfTest_Init ⟨true, none, 7, 7, 7, 7, 7, 7, true⟩ .HtmrefPerfTest_Atomic 4 100000)
        "atomic" 0).expected = ((4 : Nat) : Int) * ((100000 : Nat) : Int) :=
  (PrintStats_expected_is_product
    (HtmrefPerfTest_Init ⟨true, none, 7, 7, 7, 7, 7, 7, true⟩ .HtmrefPerfTest_Atomic 4 100000)
    "atomic" 0 (by decide) (by decide)).1

theorem ofDigits_replicate_zero (k : Nat) : Nat.ofDigits 10 (List.replicate k 0) = 0 := by
  induction k with
  | zero => rfl
  | succ k ih => simp [List.replicate_succ, Nat.ofDigits_cons, ih]

theorem ofDigits_fmt_u (n : Nat) : Nat.ofDigits 10 (fmt_u n).reverse = n := by
  unfold fmt_u
  split
  · next h => subst h; rfl
  · rw [List.reverse_reverse, Nat.ofDigits_digits]

theorem length_fmt_u_le (n : Nat) (h : n < 10 ^ 6) : (fmt_u n).length ≤ 6 := by
  unfold fmt_u
  split
  · simp
  · next hn =>
    rw [List.length_reverse, Nat.digits_len 10 n (by norm_num) hn]
    have := Nat.log_lt_of_lt_pow hn h
    omega

theorem length_fmt_06u (n : Nat) (h : n < 10 ^ 6) : (fmt_06u n).length = 6 := by
  have := length_fmt_u_le n h
  simp only [fmt_06u, List.length_append, List.length_replicate]
  omega

theorem ofDigits_fmt_06u (n : Nat) : Nat.ofDigits 10 (fmt_06u n).reverse = n := by
  simp only [fmt_06u, List.reverse_append, List.reverse_replicate, Nat.ofDigits_append,
    ofDigits_replicate_zero, mul_zero, add_zero, ofDigits_fmt_u]

/-- C6: for a session with `0 ≤ end_at - begin_at < 2^32 * 1000000`, the two
numbers `HtmrefPerfTest_PrintStats` prints in the last field, after the casts to
`unsigned`, satisfy `sec * 1000000 + usec = end_at - begin_at` and
`usec < 1000000`; `usec` printed with `%06u` has exactly six digits and the field
`<sec>.<usec>` read as a decimal number is the elapsed time in seconds. -/
theorem PrintStats_elapsed_field (test : HtmrefPerfTest) (command : String) (run_number : Int)
    (h0 : 0 ≤ test.end_at - test.begin_at)
    (h1 : test.end_at - test.begin_at < 2 ^ 32 * 1000000) :
    ((HtmrefPerfTest_PrintStats test command run_number).sec : Int) * 1000000
        + (HtmrefPerfTest_PrintStats test command run_number).usec
        = test.end_at - test.begin_at ∧
      (HtmrefPerfTest_PrintStats test command run_number).usec < 1000000 ∧
      (fmt_06u (HtmrefPerfTest_PrintStats test command run_number).usec).length = 6 ∧
      readDecimal (fmt_u (HtmrefPerfTest_PrintStats test command run_number).sec)
          (fmt_06u (HtmrefPerfTest_PrintStats test command run_number).usec)
        = ((test.end_at - test.begin_at : Int) : ℚ) / 1000000 := by
  have hd : HtmrefPerfTest_PrintStats.time_diff test = test.end_at - test.begin_at := by
    unfold HtmrefPerfTest_PrintStats.time_diff
    apply wrapInt64_of_range <;> omega
  have hsec : HtmrefPerfTest_PrintStats.sec test = (test.end_at - test.begin_at) / 1000000 := by
    unfold HtmrefPerfTest_PrintStats.sec USEC_PER_SEC
    rw [hd, Int.tdiv_eq_ediv h0 (by norm_num)]
    norm_num
  have husec : HtmrefPerfTest_PrintStats.usec test = (test.end_at - test.begin_at) % 1000000 := by
    unfold HtmrefPerfTest_PrintStats.usec USEC_PER_SEC
    rw [hd, Int.tmod_eq_emod h0 (by norm_num)]
    norm_num
  have hS : ((HtmrefPerfTest_PrintStats test command run_number).sec : Int)
      = (test.end_at - test.begin_at) / 1000000 := by
    simp only [HtmrefPerfTest_PrintStats, hsec]
    apply toUnsigned_of_range <;> omega
  have hU : ((HtmrefPerfTest_PrintStats test command run_number).usec : Int)
      = (test.end_at - test.begin_at) % 1000000 := by
    simp only [HtmrefPerfTest_PrintStats, husec]
    apply toUnsigned_of_range <;> omega
  have hsum : ((HtmrefPerfTest_PrintStats test command run_number).sec : Int) * 1000000
        + (HtmrefPerfTest_PrintStats test command run_number).usec
        = test.end_at - test.begin_at := by
    rw [hS, hU]; omega
  have hlt : (HtmrefPerfTest_PrintStats test command run_number).usec < 1000000 := by
    have : ((HtmrefPerfTest_PrintStats test command run_number).usec : Int) < 1000000 := by
      rw [hU]; omega
    omega
  refine ⟨hsum, hlt, length_fmt_06u _ (by norm_num; exact hlt), ?_⟩
  unfold readDecimal
  rw [length_fmt_06u _ (by norm_num; exact hlt), ofDigits_fmt_u, ofDigits_fmt_06u, ← hsum]
  push_cast
  ring

theorem PrintStats_elapsed_field_witness :
    (HtmrefPerfTest_PrintStats ⟨false, none, 4, 4, 10, 1000000, 3000042, 40, false⟩ "atomic" 0).sec
        = 2 ∧
      (HtmrefPerfTest_PrintStats ⟨false, none, 4, 4, 10, 1000000, 3000042, 40, false⟩ "atomic"
        0).usec = 42 ∧
      readDecimal
          (fmt_u (HtmrefPerfTest_PrintStats ⟨false, none, 4, 4, 10, 1000000, 3000042, 40, false⟩
            "atomic" 0).sec)
          (fmt_06u (HtmrefPerfTest_PrintStats ⟨false, none, 4, 4, 10, 1000000, 3000042, 40, false⟩
            "atomic" 0).usec)
        = (((3000042 : Int) - 1000000 : Int) : ℚ) / 1000000 :=
  ⟨by decide, by decide,
    (PrintStats_elapsed_field ⟨false, none, 4, 4, 10, 1000000, 3000042, 40, false⟩ "atomic" 0
      (by decide) (by decide)).2.2.2⟩

/-! ## Floating point -/

theorem roundToMultiple_bounds (q : ℚ) (e : Int) (hq : 0 ≤ q) :
    0 ≤ roundToMultiple q e ∧ roundToMultiple q e ≤ q + (2 : ℚ) ^ e ∧
      q - (2 : ℚ) ^ e ≤ roundToMultiple q e := by
  have hp : (0 : ℚ) < (2 : ℚ) ^ e := zpow_pos (by norm_num) e
  have hm : 0 ≤ q / (2 : ℚ) ^ e := div_nonneg hq hp.le
  have hfl0 : (0 : Int) ≤ ⌊q / (2 : ℚ) ^ e⌋ := Int.floor_nonneg.mpr hm
  have hfl1 : ((⌊q / (2 : ℚ) ^ e⌋ : Int) : ℚ) ≤ q / (2 : ℚ) ^ e := Int.floor_le _
  have hfl2 : q / (2 : ℚ) ^ e < ((⌊q / (2 : ℚ) ^ e⌋ : Int) : ℚ) + 1 := Int.lt_floor_add_one _
  have hq' : q = q / (2 : ℚ) ^ e * (2 : ℚ) ^ e := by field_simp
  have key : ∀ n : Int, ⌊q / (2 : ℚ) ^ e⌋ ≤ n → n ≤ ⌊q / (2 : ℚ) ^ e⌋ + 1 →
      0 ≤ (n : ℚ) * (2 : ℚ) ^ e ∧ (n : ℚ) * (2 : ℚ) ^ e ≤ q + (2 : ℚ) ^ e ∧
        q - (2 : ℚ) ^ e ≤ (n : ℚ) * (2 : ℚ) ^ e := by
    intro n h1 h2
    have h1' : ((⌊q / (2 : ℚ) ^ e⌋ : Int) : ℚ) ≤ n := by exact_mod_cast h1
    have h2' : (n : ℚ) ≤ ((⌊q / (2 : ℚ) ^ e⌋ : Int) : ℚ) + 1 := by exact_mod_cast h2
    have h0 : (0 : ℚ) ≤ n := by
      have : (0 : ℚ) ≤ ((⌊q / (2 : ℚ) ^ e⌋ : Int) : ℚ) := by exact_mod_cast hfl0
      linarith
    refine ⟨mul_nonneg h0 hp.le, ?_, ?_⟩
    · have : (n : ℚ) * (2 : ℚ) ^ e ≤ (q / (2 : ℚ) ^ e + 1) * (2 : ℚ) ^ e :=
        mul_le_mul_of_nonneg_right (by linarith) hp.le
      rw [add_mul, ← hq', one_mul] at this
      exact this
    · have : (q / (2 : ℚ) ^ e - 1) * (2 : ℚ) ^ e ≤ (n : ℚ) * (2 : ℚ) ^ e :=
        mul_le_mul_of_nonneg_right (by linarith) hp.le
      rw [sub_mul, ← hq', one_mul] at this
      exact this
  unfold roundToMultiple
  simp only []
  split_ifs
  · exact key _ (le_refl _) (by omega)
  · exact key _ (by omega) (le_refl _)
  · exact key _ (le_refl _) (by omega)
  · exact key _ (by omega) (le_refl _)

theorem ulp_le (q : ℚ) (hq : 0 < q) :
    (2 : ℚ) ^ ulpExponent q ≤ q / 2 ∨ (2 : ℚ) ^ ulpExponent q ≤ 1 := by
  unfold ulpExponent
  by_cases h : -1022 ≤ Int.log 2 q
  · left
    rw [max_eq_left h, zpow_sub₀ (by norm_num)]
    have h1 : ((2 : ℕ) : ℚ) ^ Int.log 2 q ≤ q := Int.zpow_log_le_self (by norm_num) hq
    have h2 : (2 : ℚ) ^ Int.log 2 q ≤ q := by exact_mod_cast h1
    have h3 : (2 : ℚ) ≤ (2 : ℚ) ^ (52 : Int) := by norm_num
    rw [div_le_div_iff₀ (by positivity) (by norm_num)]
    calc (2 : ℚ) ^ Int.log 2 q * 2 ≤ q * 2 := by linarith
      _ ≤ q * (2 : ℚ) ^ (52 : Int) := mul_le_mul_of_nonneg_left h3 hq.le
  · right
    rw [max_eq_right (by omega)]
    norm_num

theorem ulp_le_half (q : ℚ) (hq : 1 ≤ q) : (2 : ℚ) ^ ulpExponent q ≤ q / 2 := by
  rcases ulp_le q (by linarith) with h | _
  · exact h
  · unfold ulpExponent
    have hlog : 0 ≤ Int.log 2 q := by
      rw [Int.log_of_one_le_right 2 hq]
      exact Int.natCast_nonneg _
    rw [max_eq_left (by omega), zpow_sub₀ (by norm_num)]
    have h1 : ((2 : ℕ) : ℚ) ^ Int.log 2 q ≤ q := Int.zpow_log_le_self (by norm_num) (by linarith)
    have h2 : (2 : ℚ) ^ Int.log 2 q ≤ q := by exact_mod_cast h1
    have h3 : (2 : ℚ) ≤ (2 : ℚ) ^ (52 : Int) := by norm_num
    rw [div_le_div_iff₀ (by positivity) (by norm_num)]
    calc (2 : ℚ) ^ Int.log 2 q * 2 ≤ q * 2 := by linarith
      _ ≤ q * (2 : ℚ) ^ (52 : Int) := mul_le_mul_of_nonneg_left h3 (by linarith)

theorem roundDouble_of_nonneg (q : ℚ) (h0 : 0 ≤ q) (hB : q ≤ (2 : ℚ) ^ (1000 : Nat)) :
    ∃ r, roundDouble q = .finite r ∧ 0 ≤ r ∧ r ≤ 2 * q + 1 ∧ (1 ≤ q → q / 2 ≤ r) := by
  unfold roundDouble
  by_cases hq : q = 0
  · subst hq
    exact ⟨0, by simp, le_refl _, by norm_num, fun h => absurd h (by norm_num)⟩
  · have hpos : 0 < q := lt_of_le_of_ne h0 (Ne.symm hq)
    rw [if_neg hq, abs_of_pos hpos]
    have hb := roundToMultiple_bounds q (ulpExponent q) h0
    have hu : (2 : ℚ) ^ ulpExponent q ≤ q + 1 := by
      rcases ulp_le q hpos with h | h <;> linarith
    have hsmall : ¬ (2 : ℚ) ^ (1024 : Nat) ≤ roundToMultiple q (ulpExponent q) := by
      have : (2 : ℚ) * (2 : ℚ) ^ (1000 : Nat) + 1 < (2 : ℚ) ^ (1024 : Nat) := by norm_num
      intro hge
      linarith [hb.2.1]
    simp only [hsmall, if_false, hpos, if_true]
    refine ⟨_, rfl, hb.1, by linarith [hb.2.1], fun h1 => ?_⟩
    have := ulp_le_half q h1
    linarith [hb.2.2]

theorem per_second_zero_elapsed (test : HtmrefPerfTest)
    (hE : 1 ≤ HtmrefPerfTest_PrintStats.expected test)
    (hE' : HtmrefPerfTest_PrintStats.expected test ≤ 2 ^ 62)
    (hd : HtmrefPerfTest_PrintStats.time_diff test = 0) :
    HtmrefPerfTest_PrintStats.per_second test = .posInf := by
  unfold HtmrefPerfTest_PrintStats.per_second Double.ofInt64
  rw [hd]
  have hE0 : (1 : ℚ) ≤ (HtmrefPerfTest_PrintStats.expected test : ℚ) := by exact_mod_cast hE
  have hE1 : (HtmrefPerfTest_PrintStats.expected test : ℚ) ≤ (2 : ℚ) ^ (1000 : Nat) := by
    have h1 : (HtmrefPerfTest_PrintStats.expected test : ℚ) ≤ (2 : ℚ) ^ (62 : Nat) := by
      exact_mod_cast hE'
    have h2 : (2 : ℚ) ^ (62 : Nat) ≤ (2 : ℚ) ^ (1000 : Nat) := by norm_num
    linarith
  obtain ⟨rx, hx, _, _, hx3⟩ := roundDouble_of_nonneg
    (HtmrefPerfTest_PrintStats.expected test : ℚ) (by linarith) hE1
  have hrx : 0 < rx := by have := hx3 hE0; linarith
  have h0 : roundDouble ((0 : Int) : ℚ) = .finite 0 := by simp [roundDouble]
  rw [hx, h0]
  simp [Double.div, Double.mul, hrx, hrx.ne']

theorem per_second_positive_elapsed (test : HtmrefPerfTest)
    (hE : 0 ≤ HtmrefPerfTest_PrintStats.expected test)
    (hE' : HtmrefPerfTest_PrintStats.expected test ≤ 2 ^ 62)
    (hd : 1 ≤ HtmrefPerfTest_PrintStats.time_diff test)
    (hd' : HtmrefPerfTest_PrintStats.time_diff test ≤ 2 ^ 63) :
    ∃ r, HtmrefPerfTest_PrintStats.per_second test = .finite r ∧ 0 ≤ r := by
  unfold HtmrefPerfTest_PrintStats.per_second Double.ofInt64
  have hE0 : (0 : ℚ) ≤ (HtmrefPerfTest_PrintStats.expected test : ℚ) := by exact_mod_cast hE
  have hE1 : (HtmrefPerfTest_PrintStats.expected test : ℚ) ≤ (2 : ℚ) ^ (62 : Nat) := by
    exact_mod_cast hE'
  have hd0 : (1 : ℚ) ≤ (HtmrefPerfTest_PrintStats.time_diff test : ℚ) := by exact_mod_cast hd
  have hd1 : (HtmrefPerfTest_PrintStats.time_diff test : ℚ) ≤ (2 : ℚ) ^ (63 : Nat) := by
    exact_mod_cast hd'
  have p62 : (2 : ℚ) ^ (62 : Nat) ≤ (2 : ℚ) ^ (1000 : Nat) := by norm_num
  have p63 : (2 : ℚ) ^ (63 : Nat) ≤ (2 : ℚ) ^ (1000 : Nat) := by norm_num
  obtain ⟨rx, hx, hx0, hx1, _⟩ := roundDouble_of_nonneg
    (HtmrefPerfTest_PrintStats.expected test : ℚ) hE0 (by linarith)
  obtain ⟨ry, hy, _, _, hy3⟩ := roundDouble_of_nonneg
    (HtmrefPerfTest_PrintStats.time_diff test : ℚ) (by linarith) (by linarith)
  have hry : (1 : ℚ) / 2 ≤ ry := by have := hy3 hd0; linarith
  have hry0 : 0 < ry := by linarith
  have hq0 : 0 ≤ rx / ry := div_nonneg hx0 hry0.le
  have hq1 : rx / ry ≤ 2 * (2 * (2 : ℚ) ^ (62 : Nat) + 1) := by
    rw [div_le_iff₀ hry0]
    have : 2 * (2 * (2 : ℚ) ^ (62 : Nat) + 1) * (1 / 2) ≤ 2 * (2 * (2 : ℚ) ^ (62 : Nat) + 1) * ry :=
      mul_le_mul_of_nonneg_left hry (by positivity)
    linarith
  have hq2 : 2 * (2 * (2 : ℚ) ^ (62 : Nat) + 1) ≤ (2 : ℚ) ^ (1000 : Nat) := by norm_num
  obtain ⟨rz, hz, hz0, hz1, _⟩ := roundDouble_of_nonneg (rx / ry) hq0 (by linarith)
  have hm0 : 0 ≤ rz * 1000000 := mul_nonneg hz0 (by norm_num)
  have hm1 : rz * 1000000 ≤ (2 : ℚ) ^ (1000 : Nat) := by
    have h1 : rz ≤ 2 * (2 * (2 * (2 : ℚ) ^ (62 : Nat) + 1)) + 1 := by linarith
    have h2 : (2 * (2 * (2 * (2 : ℚ) ^ (62 : Nat) + 1)) + 1) * 1000000 ≤ (2 : ℚ) ^ (1000 : Nat) := by
      have e1 : (2 * (2 * (2 * (2 : ℚ) ^ (62 : Nat) + 1)) + 1) ≤ (2 : ℚ) ^ (66 : Nat) := by norm_num
      have e2 : (1000000 : ℚ) ≤ (2 : ℚ) ^ (20 : Nat) := by norm_num
      have e3 : (2 : ℚ) ^ (66 : Nat) * (2 : ℚ) ^ (20 : Nat) ≤ (2 : ℚ) ^ (1000 : Nat) := by
        rw [← pow_add]
        exact pow_le_pow_right₀ (by norm_num) (by norm_num)
      calc (2 * (2 * (2 * (2 : ℚ) ^ (62 : Nat) + 1)) + 1) * 1000000
          ≤ (2 : ℚ) ^ (66 : Nat) * (2 : ℚ) ^ (20 : Nat) :=
            mul_le_mul e1 e2 (by norm_num) (by positivity)
        _ ≤ (2 : ℚ) ^ (1000 : Nat) := e3
    have h3 : rz * 1000000 ≤ (2 * (2 * (2 * (2 : ℚ) ^ (62 : Nat) + 1)) + 1) * 1000000 :=
      mul_le_mul_of_nonneg_right h1 (by norm_num)
    linarith
  obtain ⟨r, hr, hr0, _, _⟩ := roundDouble_of_nonneg (rz * 1000000) hm0 hm1
  refine ⟨r, ?_, hr0⟩
  rw [hx, hy]
  simp only [Double.div, hry0.ne', if_false, hz, Double.mul, hr]

theorem time_diff_of_range (test : HtmrefPerfTest)
    (h0 : -(2 ^ 63) ≤ test.end_at - test.begin_at) (h1 : test.end_at - test.begin_at < 2 ^ 63) :
    HtmrefPerfTest_PrintStats.time_diff test = test.end_at - test.begin_at := by
  unfold HtmrefPerfTest_PrintStats.time_diff
  exact wrapInt64_of_range h0 h1

theorem expected_range (test : HtmrefPerfTest)
    (hT : 1 ≤ test.n_threads ∧ test.n_threads < 2 ^ 31)
    (hI : 1 ≤ test.n_iterations ∧ test.n_iterations < 2 ^ 31) :
    1 ≤ HtmrefPerfTest_PrintStats.expected test ∧
      HtmrefPerfTest_PrintStats.expected test ≤ 2 ^ 62 := by
  rw [expected_of_small test hT.2 hI.2]
  have hT1 : (1 : Int) ≤ test.n_threads := by omega
  have hI1 : (1 : Int) ≤ test.n_iterations := by omega
  have hT2 : (test.n_threads : Int) ≤ 2 ^ 31 := by omega
  have hI2 : (test.n_iterations : Int) ≤ 2 ^ 31 := by omega
  constructor
  · have := mul_le_mul hT1 hI1 (by norm_num) (by omega)
    simpa using this
  · have := mul_le_mul hT2 hI2 (by omega) (by norm_num)
    have h3 : (2 : Int) ^ 31 * 2 ^ 31 = 2 ^ 62 := by norm_num
    omega

/-- C5, as the code has it: for a session with thread and iteration counts
that are positive `int`s and `end_at > begin_at`, the throughput
`HtmrefPerfTest_PrintStats` computes, `(double)expected / (double)time_diff *
1000000.0` in binary64 arithmetic, is a finite number and not negative. -/
theorem per_second_finite_nonneg (test : HtmrefPerfTest)
    (hT : 1 ≤ test.n_threads ∧ test.n_threads < 2 ^ 31)
    (hI : 1 ≤ test.n_iterations ∧ test.n_iterations < 2 ^ 31)
    (h0 : 0 < test.end_at - test.begin_at) (h1 : test.end_at - test.begin_at < 2 ^ 63) :
    (HtmrefPerfTest_PrintStats.per_second test).isFinite = true ∧
      (HtmrefPerfTest_PrintStats.per_second test).isNonneg = true := by
  have hE := expected_range test hT hI
  have hd := time_diff_of_range test (by omega) h1
  obtain ⟨r, hr, hr0⟩ := per_second_positive_elapsed test (by omega) hE.2
    (by rw [hd]; omega) (by rw [hd]; omega)
  rw [hr]
  simp [Double.isFinite, Double.isNonneg, hr0]

theorem per_second_finite_nonneg_witness :
    (HtmrefPerfTest_PrintStats.per_second
        ⟨false, some .HtmrefPerfTest_Atomic, 4, 4, 100000, 1000000, 3000042, 400000, false⟩
      ).isFinite = true ∧
      (HtmrefPerfTest_PrintStats.per_second
        ⟨false, some .HtmrefPerfTest_Atomic, 4, 4, 100000, 1000000, 3000042, 400000, false⟩
      ).isNonneg = true :=
  per_second_finite_nonneg
    ⟨false, some .HtmrefPerfTest_Atomic, 4, 4, 100000, 1000000, 3000042, 400000, false⟩
    (by decide) (by decide) (by decide) (by decide)

/-- C5 as stated fails: a session of 4 threads and 100000 iterations whose two
timestamps are equal (`end_at ≥ begin_at` holds) has `time_diff = 0`, and the
division by `0.0` makes the throughput `+∞`, which is not finite. -/
theorem per_second_infinite_when_timestamps_equal :
    (1 : Nat) ≤ (⟨false, some .HtmrefPerfTest_Atomic, 4, 4, 100000, 7, 7, 400000, false⟩ :
        HtmrefPerfTest).n_threads ∧
      (1 : Nat) ≤ (⟨false, some .HtmrefPerfTest_Atomic, 4, 4, 100000, 7, 7, 400000, false⟩ :
        HtmrefPerfTest).n_iterations ∧
      (⟨false, some .HtmrefPerfTest_Atomic, 4, 4, 100000, 7, 7, 400000, false⟩ :
        HtmrefPerfTest).begin_at ≤
        (⟨false, some .HtmrefPerfTest_Atomic, 4, 4, 100000, 7, 7, 400000, false⟩ :
          HtmrefPerfTest).end_at ∧
      HtmrefPerfTest_PrintStats.per_second
        ⟨false, some .HtmrefPerfTest_Atomic, 4, 4, 100000, 7, 7, 400000, false⟩ = .posInf ∧
      (HtmrefPerfTest_PrintStats.per_second
        ⟨false, some .HtmrefPerfTest_Atomic, 4, 4, 100000, 7, 7, 400000, false⟩).isFinite
        = false := by
  have hE := expected_range
    ⟨false, some .HtmrefPerfTest_Atomic, 4, 4, 100000, 7, 7, 400000, false⟩
    (by decide) (by decide)
  have h := per_second_zero_elapsed
    ⟨false, some .HtmrefPerfTest_Atomic, 4, 4, 100000, 7, 7, 400000, false⟩ hE.1 hE.2
    (by decide)
  refine ⟨by decide, by decide, by decide, h, ?_⟩
  rw [h]
  rfl

/-! ## Initialisation and the loop of `main` -/

theorem main_loop_started (Run : Nat → HtmrefPerfTest → Option HtmrefPerfTest)
    (worker_func : HtmrefPerfTestFunc) (n_threads n_iterations : Int) (command : String)
    (garbage : HtmrefPerfTest) (remaining : Nat) :
    ∀ (i : Nat) (test : HtmrefPerfTest),
      ∀ t ∈ (main.loop Run worker_func n_threads n_iterations command remaining i test).started,
        t = HtmrefPerfTest_Init garbage worker_func n_threads n_iterations := by
  induction remaining with
  | zero => intro i test t ht; simp [main.loop] at ht
  | succ r ih =>
    intro i test t ht
    simp only [main.loop] at ht
    split at ht
    · simp only [List.mem_singleton] at ht
      rw [ht]; rfl
    · next finished _ =>
      simp only [List.mem_cons] at ht
      rcases ht with ht | ht
      · rw [ht]; rfl
      · exact ih (i + 1) finished t ht

/-- C9: the session `HtmrefPerfTest_Init` produces does not depend on the
previous content of the session: for positive `int` counts it has counter 0,
`threads_active` 0, `begin_at` 0, `end_at` 0, free locks, and the given worker
function, thread count and iteration count; so every run of the loop of `main`
starts from the same session, whatever the runs before it left behind. -/
theorem Init_independent_of_prior (prior other : HtmrefPerfTest)
    (worker_func : HtmrefPerfTestFunc) (n_threads n_iterations : Int)
    (hT : 0 < n_threads ∧ n_threads ≤ 2 ^ 31 - 1)
    (hI : 0 < n_iterations ∧ n_iterations ≤ 2 ^ 31 - 1) :
    HtmrefPerfTest_Init prior worker_func n_threads n_iterations
        = HtmrefPerfTest_Init other worker_func n_threads n_iterations ∧
      (HtmrefPerfTest_Init prior worker_func n_threads n_iterations).counter = 0 ∧
      (HtmrefPerfTest_Init prior worker_func n_threads n_iterations).threads_active = 0 ∧
      (HtmrefPerfTest_Init prior worker_func n_threads n_iterations).begin_at = 0 ∧
      (HtmrefPerfTest_Init prior worker_func n_threads n_iterations).end_at = 0 ∧
      (HtmrefPerfTest_Init prior worker_func n_threads n_iterations).mutex = false ∧
      (HtmrefPerfTest_Init prior worker_func n_threads n_iterations).spin = false ∧
      (HtmrefPerfTest_Init prior worker_func n_threads n_iterations).worker_func
        = some worker_func ∧
      ((HtmrefPerfTest_Init prior worker_func n_threads n_iterations).n_threads : Int)
        = n_threads ∧
      ((HtmrefPerfTest_Init prior worker_func n_threads n_iterations).n_iterations : Int)
        = n_iterations ∧
      ∀ (Run : Nat → HtmrefPerfTest → Option HtmrefPerfTest) (command : String)
        (n_runs i : Nat),
        ∀ t ∈ (main.loop Run worker_func n_threads n_iterations command n_runs i prior).started,
          t = HtmrefPerfTest_Init other worker_func n_threads n_iterations ∧ t.counter = 0 := by
  have hf := Init_fields prior worker_func n_threads n_iterations hT hI
  refine ⟨rfl, rfl, rfl, rfl, rfl, rfl, rfl, rfl, hf.1, hf.2, ?_⟩
  intro Run command n_runs i t ht
  have := main_loop_started Run worker_func n_threads n_iterations command other n_runs i prior t ht
  exact ⟨this, by rw [this]; rfl⟩

theorem Init_independent_of_prior_witness :
    HtmrefPerfTest_Init ⟨true, none, 4, 4, 100000, 17, 99, 400000, true⟩ .HtmrefPerfTest_Atomic
        4 100000
      = HtmrefPerfTest_Init ⟨false, none, 0, 0, 0, 0, 0, 0, false⟩ .HtmrefPerfTest_Atomic
        4 100000 :=
  (Init_independent_of_prior ⟨true, none, 4, 4, 100000, 17, 99, 400000, true⟩
    ⟨false, none, 0, 0, 0, 0, 0, 0, false⟩ .HtmrefPerfTest_Atomic 4 100000
    (by decide) (by decide)).1

/-! ## Command line -/

theorem main_loop_status (Run : Nat → HtmrefPerfTest → Option HtmrefPerfTest)
    (worker_func : HtmrefPerfTestFunc) (n_threads n_iterations : Int) (command : String)
    (remaining : Nat) :
    ∀ (i : Nat) (test : HtmrefPerfTest),
      (main.loop Run worker_func n_threads n_iterations command remaining i test).status
        ≠ .EXIT_FAILURE := by
  induction remaining with
  | zero => intro i test; simp [main.loop]
  | succ r ih =>
    intro i test
    simp only [main.loop]
    split
    · simp
    · next finished _ => exact ih (i + 1) finished

theorem main_loop_started_ne_nil (Run : Nat → HtmrefPerfTest → Option HtmrefPerfTest)
    (worker_func : HtmrefPerfTestFunc) (n_threads n_iterations : Int) (command : String)
    (remaining : Nat) (h : 0 < remaining) (i : Nat) (test : HtmrefPerfTest) :
    (main.loop Run worker_func n_threads n_iterations command remaining i test).started ≠ [] := by
  obtain ⟨r, rfl⟩ : ∃ r, remaining = r + 1 := ⟨remaining - 1, by omega⟩
  simp only [main.loop]
  split <;> simp

theorem selectWorkerFunc_eq_none (command : String) :
    selectWorkerFunc command = none ↔
      command ≠ "tsx" ∧ command ≠ "addq" ∧ command ≠ "atomic" ∧ command ≠ "spinlock" := by
  unfold selectWorkerFunc
  split_ifs <;> simp_all

theorem main_cases (Run : Nat → HtmrefPerfTest → Option HtmrefPerfTest)
    (test : HtmrefPerfTest) (argv : List String) :
    (ConfigurationError argv ∧ main Run test argv = main.fail) ∨
      (¬ ConfigurationError argv ∧
        ∃ (worker_func : HtmrefPerfTestFunc) (n_threads n_iterations : Int) (n_runs : Nat),
          0 < n_runs ∧
          main Run test argv
            = main.loop Run worker_func n_threads n_iterations (argv.getD 1 "") n_runs 0 test) := by
  unfold ConfigurationError
  rw [← selectWorkerFunc_eq_none]
  by_cases h1 : argv.length < 2
  · left
    exact ⟨Or.inl h1, by simp only [main, if_pos h1]⟩
  cases hsel : selectWorkerFunc (argv.getD 1 "") with
  | none =>
    left
    exact ⟨Or.inr (Or.inl rfl), by simp only [main, if_neg h1, hsel]⟩
  | some worker_func =>
    by_cases h2 : argv.length > 2 ∧
        (atoi (argv.getD 2 "") ≤ 0 ∨ atoi (argv.getD 2 "") > 10000)
    · left
      refine ⟨?_, by simp only [main, if_neg h1, hsel, if_pos h2.1, if_pos h2]⟩
      right; right; left
      exact ⟨h2.1, by omega⟩
    have h2' : ¬ (argv.length > 2 ∧ ((if argv.length > 2 then atoi (argv.getD 2 "") else 10) ≤ 0
        ∨ (if argv.length > 2 then atoi (argv.getD 2 "") else 10) > 10000)) := by
      rintro ⟨ha, hb⟩
      rw [if_pos ha] at hb
      exact h2 ⟨ha, hb⟩
    by_cases h3 : argv.length > 3 ∧ atoi (argv.getD 3 "") ≤ 0
    · left
      refine ⟨?_, by simp only [main, if_neg h1, hsel, if_neg h2', if_pos h3.1, if_pos h3]⟩
      right; right; right; left
      exact h3
    have h3' : ¬ (argv.length > 3 ∧
        (if argv.length > 3 then atoi (argv.getD 3 "") else 10000000) ≤ 0) := by
      rintro ⟨ha, hb⟩
      rw [if_pos ha] at hb
      exact h3 ⟨ha, hb⟩
    by_cases h4 : argv.length > 4 ∧ atoi (argv.getD 4 "") ≤ 0
    · left
      refine ⟨?_, by
        simp only [main, if_neg h1, hsel, if_neg h2', if_neg h3', if_pos h4.1, if_pos h4]⟩
      right; right; right; right
      exact h4
    have h4' : ¬ (argv.length > 4 ∧
        (if argv.length > 4 then atoi (argv.getD 4 "") else 1) ≤ 0) := by
      rintro ⟨ha, hb⟩
      rw [if_pos ha] at hb
      exact h4 ⟨ha, hb⟩
    right
    constructor
    · rintro (h | h | h | h | h)
      · exact absurd h h1
      · simp at h
      · exact absurd ⟨h.1, by omega⟩ h2
      · exact absurd h h3
      · exact absurd h h4
    · refine ⟨worker_func, (if argv.length > 2 then atoi (argv.getD 2 "") else 10),
        (if argv.length > 3 then atoi (argv.getD 3 "") else 10000000),
        (if argv.length > 4 then atoi (argv.getD 4 "") else 1).toNat,
        ?_, by simp only [main, if_neg h1, hsel, if_neg h2', if_neg h3', if_neg h4']⟩
      by_cases h5 : argv.length > 4
      · rw [if_pos h5]
        have : ¬ atoi (argv.getD 4 "") ≤ 0 := fun h => h4 ⟨h5, h⟩
        omega
      · rw [if_neg h5]
        decide

/-- C7: `main` exits with `EXIT_FAILURE` without having initialised or run any
test exactly when the selector is missing or is none of `tsx`, `addq`,
`atomic`, `spinlock`, or a supplied thread count is outside `1..10000`, or a
supplied iteration count or run count is `≤ 0` (numbers as `atoi` parses them);
on failure nothing was started or printed, otherwise at least one test was
initialised; thread counts `0` and `10001` are rejected, `1` and `10000`
accepted. -/
theorem main_failure_iff_configuration_error
    (Run : Nat → HtmrefPerfTest → Option HtmrefPerfTest) (test : HtmrefPerfTest)
    (argv : List String) :
    (((main Run test argv).status = .EXIT_FAILURE ∧ (main Run test argv).started = []) ↔
        (argv.length < 2 ∨
          (argv.getD 1 "" ≠ "tsx" ∧ argv.getD 1 "" ≠ "addq" ∧ argv.getD 1 "" ≠ "atomic" ∧
            argv.getD 1 "" ≠ "spinlock") ∨
          (2 < argv.length ∧ ¬ (1 ≤ atoi (argv.getD 2 "") ∧ atoi (argv.getD 2 "") ≤ 10000)) ∨
          (3 < argv.length ∧ atoi (argv.getD 3 "") ≤ 0) ∨
          (4 < argv.length ∧ atoi (argv.getD 4 "") ≤ 0))) ∧
      ((main Run test argv).status = .EXIT_FAILURE →
        (main Run test argv).started = [] ∧ (main Run test argv).printed = []) ∧
      ((main Run test argv).status ≠ .EXIT_FAILURE → (main Run test argv).started ≠ []) ∧
      (main Run test ["htmref", "atomic", "0"]).status = .EXIT_FAILURE ∧
      (main Run test ["htmref", "atomic", "10001"]).status = .EXIT_FAILURE ∧
      (main Run test ["htmref", "atomic", "1"]).status ≠ .EXIT_FAILURE ∧
      (main Run test ["htmref", "atomic", "10000"]).status ≠ .EXIT_FAILURE := by
  have key : ∀ av : List String,
      ((main Run test av).status = .EXIT_FAILURE ↔ ConfigurationError av) ∧
      ((main Run test av).status = .EXIT_FAILURE →
        (main Run test av).started = [] ∧ (main Run test av).printed = []) ∧
      ((main Run test av).status ≠ .EXIT_FAILURE → (main Run test av).started ≠ []) := by
    intro av
    rcases main_cases Run test av with ⟨hc, hm⟩ | ⟨hc, worker_func, T, I, n, hn, hm⟩
    · rw [hm]
      exact ⟨⟨fun _ => hc, fun _ => rfl⟩, fun _ => ⟨rfl, rfl⟩, fun h => absurd rfl h⟩
    · rw [hm]
      have hs := main_loop_status Run worker_func T I (av.getD 1 "") n 0 test
      exact ⟨⟨fun h => absurd h hs, fun h => absurd h hc⟩, fun h => absurd h hs,
        fun _ => main_loop_started_ne_nil Run worker_func T I _ n hn 0 test⟩
  refine ⟨?_, (key argv).2.1, (key argv).2.2, ?_, ?_, ?_, ?_⟩
  · constructor
    · intro h
      exact (key argv).1.1 h.1
    · intro h
      have hf := (key argv).1.2 h
      exact ⟨hf, ((key argv).2.1 hf).1⟩
  · apply (key _).1.2
    unfold ConfigurationError
    decide
  · apply (key _).1.2
    unfold ConfigurationError
    decide
  · intro h
    have := (key _).1.1 h
    revert this
    unfold ConfigurationError
    decide
  · intro h
    have := (key _).1.1 h
    revert this
    unfold ConfigurationError
    decide

/-! ## The strategies run by one thread -/

theorem with_counter_self (w : HtmrefPerfTest) : { w with counter := w.counter + 0 } = w := by
  cases w
  simp

theorem Addq_loop_spec (k : Nat) :
    ∀ (worker : HtmrefPerfTest) (i : Nat), worker.n_iterations - i = k →
      -(2 ^ 63) ≤ worker.counter → worker.counter + (k : Int) < 2 ^ 63 →
      HtmrefPerfTest_Addq.loop worker i = { worker with counter := worker.counter + k } := by
  induction k with
  | zero =>
    intro worker i hk _ _
    rw [HtmrefPerfTest_Addq.loop, if_neg (by omega)]
    exact (with_counter_self worker).symm
  | succ k ih =>
    intro worker i hk hlo hhi
    rw [HtmrefPerfTest_Addq.loop, if_pos (by omega)]
    have hw : wrapInt64 (worker.counter + 1) = worker.counter + 1 :=
      wrapInt64_of_range (by omega) (by omega)
    rw [ih (incrementCounter worker) (i + 1) (by simp only [incrementCounter]; omega)
      (by simp only [incrementCounter, hw]; omega)
      (by simp only [incrementCounter, hw]; omega)]
    simp only [incrementCounter, hw]
    congr 1
    push_cast
    ring

theorem Atomic_loop_spec (k : Nat) :
    ∀ (worker : HtmrefPerfTest) (i : Nat), worker.n_iterations - i = k →
      -(2 ^ 63) ≤ worker.counter → worker.counter + (k : Int) < 2 ^ 63 →
      HtmrefPerfTest_Atomic.loop worker i = { worker with counter := worker.counter + k } := by
  induction k with
  | zero =>
    intro worker i hk _ _
    rw [HtmrefPerfTest_Atomic.loop, if_neg (by omega)]
    exact (with_counter_self worker).symm
  | succ k ih =>
    intro worker i hk hlo hhi
    rw [HtmrefPerfTest_Atomic.loop, if_pos (by omega)]
    have hw : wrapInt64 (worker.counter + 1) = worker.counter + 1 :=
      wrapInt64_of_range (by omega) (by omega)
    rw [ih (sync_fetch_and_add worker) (i + 1) (by simp only [sync_fetch_and_add]; omega)
      (by simp only [sync_fetch_and_add, hw]; omega)
      (by simp only [sync_fetch_and_add, hw]; omega)]
    simp only [sync_fetch_and_add, hw]
    congr 1
    push_cast
    ring

theorem IntelTsx_loop_spec (tx : Nat → TxOutcome) (k : Nat) :
    ∀ (worker : HtmrefPerfTest) (i : Nat), worker.n_iterations - i = k →
      -(2 ^ 63) ≤ worker.counter → worker.counter + (k : Int) < 2 ^ 63 →
      HtmrefPerfTest_IntelTsx.loop tx worker i
        = { worker with counter := worker.counter + k } := by
  induction k with
  | zero =>
    intro worker i hk _ _
    rw [HtmrefPerfTest_IntelTsx.loop, if_neg (by omega)]
    exact (with_counter_self worker).symm
  | succ k ih =>
    intro worker i hk hlo hhi
    rw [HtmrefPerfTest_IntelTsx.loop, if_pos (by omega)]
    have hw : wrapInt64 (worker.counter + 1) = worker.counter + 1 :=
      wrapInt64_of_range (by omega) (by omega)
    cases tx i with
    | committed =>
      simp only []
      rw [ih (incrementCounter worker) (i + 1) (by simp only [incrementCounter]; omega)
        (by simp only [incrementCounter, hw]; omega)
        (by simp only [incrementCounter, hw]; omega)]
      simp only [incrementCounter, hw]
      congr 1
      push_cast
      ring
    | aborted =>
      simp only []
      rw [ih (sync_fetch_and_add worker) (i + 1) (by simp only [sync_fetch_and_add]; omega)
        (by simp only [sync_fetch_and_add, hw]; omega)
        (by simp only [sync_fetch_and_add, hw]; omega)]
      simp only [sync_fetch_and_add, hw]
      congr 1
      push_cast
      ring

theorem Spinlock_loop_spec (k : Nat) :
    ∀ (worker : HtmrefPerfTest) (i : Nat), worker.n_iterations - i = k →
      worker.spin = false →
      -(2 ^ 63) ≤ worker.counter → worker.counter + (k : Int) < 2 ^ 63 →
      HtmrefPerfTest_Spinlock.loop worker i
        = some { worker with counter := worker.counter + k } := by
  induction k with
  | zero =>
    intro worker i hk _ _ _
    rw [HtmrefPerfTest_Spinlock.loop, if_neg (by omega)]
    exact congrArg some (with_counter_self worker).symm
  | succ k ih =>
    intro worker i hk hspin hlo hhi
    rw [HtmrefPerfTest_Spinlock.loop, if_pos (by omega)]
    have hw : wrapInt64 (worker.counter + 1) = worker.counter + 1 :=
      wrapInt64_of_range (by omega) (by omega)
    have hl : pthread_spin_lock worker = some { worker with spin := true } := by
      simp [pthread_spin_lock, hspin]
    split
    · next h => rw [hl] at h; exact absurd h (by simp)
    · next w h =>
      rw [hl] at h
      simp only [Option.some.injEq] at h
      subst h
      rw [ih _ (i + 1) (by simp only [incrementCounter, pthread_spin_unlock]; omega)
        (by simp only [pthread_spin_unlock])
        (by simp only [incrementCounter, pthread_spin_unlock, hw]; omega)
        (by simp only [incrementCounter, pthread_spin_unlock, hw]; omega)]
      simp only [incrementCounter, pthread_spin_unlock, hw]
      congr 2
      · push_cast
        ring
      · exact hspin.symm

theorem PrintStats_actual (test : HtmrefPerfTest) (command : String) (run_number : Int) :
    (HtmrefPerfTest_PrintStats test command run_number).actual = test.counter := rfl

theorem PrintStats_expected (test : HtmrefPerfTest) (command : String) (run_number : Int) :
    (HtmrefPerfTest_PrintStats test command run_number).expected
      = HtmrefPerfTest_PrintStats.expected test := rfl

theorem Addq_on_fresh_session (prior : HtmrefPerfTest) :
    HtmrefPerfTest_Addq (HtmrefPerfTest_Init prior .HtmrefPerfTest_Addq 1 100000)
      = { HtmrefPerfTest_Init prior .HtmrefPerfTest_Addq 1 100000 with counter := 100000 } := by
  have hf := Init_fields prior .HtmrefPerfTest_Addq 1 100000 (by norm_num) (by norm_num)
  have hc : (HtmrefPerfTest_Init prior .HtmrefPerfTest_Addq 1 100000).counter = 0 := by
    simp only [HtmrefPerfTest_Init]
  have hI : (HtmrefPerfTest_Init prior .HtmrefPerfTest_Addq 1 100000).n_iterations = 100000 := by
    have := hf.2
    omega
  have h := Addq_loop_spec 100000 (HtmrefPerfTest_Init prior .HtmrefPerfTest_Addq 1 100000) 0
    (by rw [hI]) (by rw [hc]; norm_num) (by rw [hc]; norm_num)
  rw [hc] at h
  rw [HtmrefPerfTest_Addq, h]
  norm_num

/-- C3: run by one thread, each of the four strategy functions returns (the
spin lock being free, as `HtmrefPerfTest_Init` leaves it, for the spinlock
one; whatever the transactions do, for the TSX one) and, when the counter `c`
and `c + n_iterations` are within the signed 64-bit range, leaves the counter
at `c + n_iterations` and every other field as it was; the unsynchronised
strategy on a session initialised with 1 thread and 100000 iterations gives
actual = expected = 100000. -/
theorem strategies_single_thread (worker : HtmrefPerfTest) (tx : Nat → TxOutcome)
    (_hn : worker.n_iterations < 2 ^ 32)
    (hlo : -(2 ^ 63) ≤ worker.counter)
    (hhi : worker.counter + (worker.n_iterations : Int) ≤ 2 ^ 63 - 1) :
    HtmrefPerfTest_Addq worker
        = { worker with counter := worker.counter + worker.n_iterations } ∧
      HtmrefPerfTest_Atomic worker
        = { worker with counter := worker.counter + worker.n_iterations } ∧
      (worker.spin = false →
        HtmrefPerfTest_Spinlock worker
          = some { worker with counter := worker.counter + worker.n_iterations }) ∧
      HtmrefPerfTest_IntelTsx tx worker
        = { worker with counter := worker.counter + worker.n_iterations } ∧
      ∀ (prior : HtmrefPerfTest) (command : String) (run_number : Int),
        (HtmrefPerfTest_PrintStats
            (HtmrefPerfTest_Addq (HtmrefPerfTest_Init prior .HtmrefPerfTest_Addq 1 100000))
            command run_number).actual = 100000 ∧
        (HtmrefPerfTest_PrintStats
            (HtmrefPerfTest_Addq (HtmrefPerfTest_Init prior .HtmrefPerfTest_Addq 1 100000))
            command run_number).expected = 100000 := by
  refine ⟨?_, ?_, ?_, ?_, ?_⟩
  · exact Addq_loop_spec _ worker 0 rfl hlo (by omega)
  · exact Atomic_loop_spec _ worker 0 rfl hlo (by omega)
  · intro hspin
    exact Spinlock_loop_spec _ worker 0 rfl hspin hlo (by omega)
  · exact IntelTsx_loop_spec tx _ worker 0 rfl hlo (by omega)
  · intro prior command run_number
    have hf := Init_fields prior .HtmrefPerfTest_Addq 1 100000 (by norm_num) (by norm_num)
    have hI : (HtmrefPerfTest_Init prior .HtmrefPerfTest_Addq 1 100000).n_iterations = 100000 := by
      have := hf.2
      omega
    have hT : (HtmrefPerfTest_Init prior .HtmrefPerfTest_Addq 1 100000).n_threads = 1 := by
      have := hf.1
      omega
    rw [PrintStats_actual, PrintStats_expected, Addq_on_fresh_session]
    refine ⟨rfl, ?_⟩
    rw [expected_of_small _ (by simp only []; omega) (by simp only []; omega)]
    simp only []
    rw [hT, hI]
    norm_num

theorem strategies_single_thread_witness :
    HtmrefPerfTest_Spinlock ⟨false, some .HtmrefPerfTest_Spinlock, 1, 1, 3, 5, 0, -2, false⟩
      = some ⟨false, some .HtmrefPerfTest_Spinlock, 1, 1, 3, 5, 0, -2 + (3 : Nat), false⟩ :=
  (strategies_single_thread ⟨false, some .HtmrefPerfTest_Spinlock, 1, 1, 3, 5, 0, -2, false⟩
    (fun _ => .aborted) (by decide) (by decide) (by decide)).2.2.1 rfl

/-! ## The interleaved run -/

theorem total_congr {f g : Nat → Int} (n : Nat) (h : ∀ k, k < n → f k = g k) :
    total f n = total g n := by
  induction n with
  | zero => rfl
  | succ n ih =>
    simp only [total]
    rw [ih (fun k hk => h k (by omega)), h n (by omega)]
theorem total_le (c : Int) (f : Nat → Int) (n : Nat) (h : ∀ k, k < n → f k ≤ c) :
    total f n ≤ n * c := by
  induction n with
  | zero => simp [total]
  | succ n ih =>
    simp only [total]
    have h1 := ih (fun k hk => h k (by omega))
    have h2 := h n (by omega)
    push_cast
    linarith
theorem total_update (f : Nat → Int) (g : Nat → Int) (j : Nat) (n : Nat) (hj : j < n)
    (h : ∀ k, k ≠ j → g k = f k) :
    total g n = total f n - f j + g j := by
  induction n with
  | zero => omega
  | succ n ih =>
    simp only [total]
    by_cases hjn : j = n
    · subst hjn
      rw [total_congr j (fun k hk => h k (by omega))]
      ring
    · rw [ih (by omega), h n (fun e => hjn e.symm)]
      ring

/-! ## Bystanders -/

theorem bystander_pc (st : Bool) (w : Worker) (h1 : w.pc ≠ .txStore) (h2 : w.pc ≠ .xend) :
    (bystander st w).pc = w.pc := by
  unfold bystander abortConflicting
  split
  · rw [if_neg (by simp [h1, h2])]
  · rfl

theorem bystander_pc_eq (st : Bool) (w : Worker) (pc : WorkerPc)
    (h : (bystander st w).pc = pc) (hne : pc ≠ .fallbackAdd) : w.pc = pc := by
  unfold bystander abortConflicting at h
  split at h
  · split at h
    · simp at h; exact absurd h.symm hne
    · exact h
  · exact h

@[simp] theorem bystander_tmp (st : Bool) (w : Worker) : (bystander st w).tmp = w.tmp := by
  unfold bystander abortConflicting
  split
  · split <;> rfl
  · rfl

@[simp] theorem bystander_i (st : Bool) (w : Worker) : (bystander st w).i = w.i := by
  unfold bystander abortConflicting
  split
  · split <;> rfl
  · rfl

theorem bystander_cases (st : Bool) (w : Worker) :
    bystander st w = w ∨
      ((w.pc = .txStore ∨ w.pc = .xend) ∧ bystander st w = { w with pc := .fallbackAdd }) := by
  unfold bystander abortConflicting
  split
  · split
    · next h => exact Or.inr ⟨h, rfl⟩
    · exact Or.inl rfl
  · exact Or.inl rfl

@[simp] theorem bystander_registered (st : Bool) (w : Worker) :
    (bystander st w).pc.registered = w.pc.registered := by
  rcases bystander_cases st w with h | ⟨h1 | h1, h⟩ <;> rw [h] <;> simp [h1, WorkerPc.registered]

@[simp] theorem bystander_holdsMutex (st : Bool) (w : Worker) :
    (bystander st w).pc.holdsMutex = w.pc.holdsMutex := by
  rcases bystander_cases st w with h | ⟨h1 | h1, h⟩ <;> rw [h] <;> simp [h1, WorkerPc.holdsMutex]

@[simp] theorem bystander_holdsSpin (st : Bool) (w : Worker) :
    (bystander st w).pc.holdsSpin = w.pc.holdsSpin := by
  rcases bystander_cases st w with h | ⟨h1 | h1, h⟩ <;> rw [h] <;> simp [h1, WorkerPc.holdsSpin]

@[simp] theorem bystander_woken (st : Bool) (w : Worker) :
    (bystander st w).pc.woken = w.pc.woken := by
  rcases bystander_cases st w with h | ⟨h1 | h1, h⟩ <;> rw [h] <;> simp [h1, WorkerPc.woken]

@[simp] theorem bystander_pastWait (st : Bool) (w : Worker) :
    (bystander st w).pc.pastWait = w.pc.pastWait := by
  rcases bystander_cases st w with h | ⟨h1 | h1, h⟩ <;> rw [h] <;> simp [h1, WorkerPc.pastWait]

@[simp] theorem bystander_func (st : Bool) (w : Worker) :
    (bystander st w).pc.func = w.pc.func := by
  rcases bystander_cases st w with h | ⟨h1 | h1, h⟩ <;> rw [h] <;> simp [h1, WorkerPc.func]

@[simp] theorem bystander_increments (st : Bool) (w : Worker) :
    (bystander st w).increments = w.increments := by
  rcases bystander_cases st w with h | ⟨h1 | h1, h⟩ <;> rw [h] <;> simp [h1, Worker.increments]

@[simp] theorem bystander_inBounds (st : Bool) (n : Nat) (w : Worker) :
    (bystander st w).inBounds n ↔ w.inBounds n := by
  rcases bystander_cases st w with h | ⟨h1 | h1, h⟩ <;> rw [h] <;> simp [h1, Worker.inBounds]

/-! ## One statement of a worker -/

theorem ThreadStart_step_frame {t0 t : HtmrefPerfTest} {w0 w : Worker} {st : Bool}
    (h : HtmrefPerfTest_ThreadStart.step t0 w0 = some (t, w, st)) :
    t.n_threads = t0.n_threads ∧ t.n_iterations = t0.n_iterations ∧
      t.worker_func = t0.worker_func ∧ t.begin_at = t0.begin_at ∧ t.end_at = t0.end_at := by
  unfold HtmrefPerfTest_ThreadStart.step at h
  split at h <;> (try split at h) <;> simp at h <;> (obtain ⟨rfl, rfl, rfl⟩ := h) <;> simp

theorem ThreadStart_step_alive {t0 t : HtmrefPerfTest} {w0 w : Worker} {st : Bool}
    (h : HtmrefPerfTest_ThreadStart.step t0 w0 = some (t, w, st)) :
    w0.pc ≠ .notCreated ∧ w0.pc ≠ .returned ∧ w0.pc ≠ .blocked ∧ w.pc ≠ .notCreated := by
  unfold HtmrefPerfTest_ThreadStart.step at h
  split at h <;> (try split at h) <;> simp at h <;> (obtain ⟨rfl, rfl, rfl⟩ := h) <;>
    simp_all

theorem ThreadStart_step_mutex {t0 t : HtmrefPerfTest} {w0 w : Worker} {st : Bool}
    (h : HtmrefPerfTest_ThreadStart.step t0 w0 = some (t, w, st)) :
    (t0.mutex = false ∧ w0.pc.holdsMutex = false ∧ t.mutex = true ∧ w.pc.holdsMutex = true) ∨
    (w0.pc.holdsMutex = true ∧ t.mutex = false ∧ w.pc.holdsMutex = false) ∨
    (t.mutex = t0.mutex ∧ w.pc.holdsMutex = w0.pc.holdsMutex) := by
  unfold HtmrefPerfTest_ThreadStart.step at h
  split at h <;> (try split at h) <;> simp at h <;> (obtain ⟨rfl, rfl, rfl⟩ := h) <;>
    simp_all [WorkerPc.holdsMutex]

theorem ThreadStart_step_active {t0 t : HtmrefPerfTest} {w0 w : Worker} {st : Bool}
    (h : HtmrefPerfTest_ThreadStart.step t0 w0 = some (t, w, st)) :
    (w0.pc = .activeStore ∧ w.pc = .condWait ∧ t.threads_active = toUnsigned (w0.tmp + 1)) ∨
    (t.threads_active = t0.threads_active ∧ w.pc.registered = w0.pc.registered) := by
  unfold HtmrefPerfTest_ThreadStart.step at h
  split at h <;> (try split at h) <;> simp at h <;> (obtain ⟨rfl, rfl, rfl⟩ := h) <;>
    simp_all [WorkerPc.registered]

theorem ThreadStart_step_activeTmp {t0 t : HtmrefPerfTest} {w0 w : Worker} {st : Bool}
    (h : HtmrefPerfTest_ThreadStart.step t0 w0 = some (t, w, st)) (hpc : w.pc = .activeStore) :
    w.tmp = t0.threads_active ∧ t.threads_active = t0.threads_active := by
  unfold HtmrefPerfTest_ThreadStart.step at h
  split at h <;> (try split at h) <;> simp at h <;> (obtain ⟨rfl, rfl, rfl⟩ := h) <;>
    simp_all

theorem workerStep_eq {s s' : System} {k : Nat} (h : workerStep s k = some s') :
    ∃ t w st, HtmrefPerfTest_ThreadStart.step s.test (s.workers k) = some (t, w, st) ∧
      s'.test = t ∧ s'.run = s.run ∧ s'.workers k = w ∧
      ∀ j, j ≠ k → s'.workers j = bystander st (s.workers j) := by
  unfold workerStep at h
  split at h
  · exact absurd h (by simp)
  · next t w st hst =>
    simp only [Option.some.injEq] at h
    subst h
    exact ⟨t, w, st, hst, rfl, rfl, by simp, fun j hj => by simp [hj]⟩

theorem Inv_workerStep {T I : Nat} {f : HtmrefPerfTestFunc} {s s' : System} {k : Nat}
    (hinv : Inv T I f s) (h : workerStep s k = some s') : Inv T I f s' := by
  obtain ⟨t, w, st, hst, ht, hrun, hk, hj⟩ := workerStep_eq h
  have hframe := ThreadStart_step_frame hst
  have halive := ThreadStart_step_alive hst
  have hmutex := ThreadStart_step_mutex hst
  have hactive := ThreadStart_step_active hst
  have hkT : k < T := by
    by_contra hge
    exact halive.1 (hinv.absent k (le_trans hinv.createLe (by omega)))
  have hkcreated : ¬ s.run.createIndex T ≤ k := fun hle => halive.1 (hinv.absent k hle)
  refine
    { n_threads_eq := by rw [ht, hframe.1, hinv.n_threads_eq]
      n_iterations_eq := by rw [ht, hframe.2.1, hinv.n_iterations_eq]
      worker_func_eq := by rw [ht, hframe.2.2.1, hinv.worker_func_eq]
      small := hinv.small
      createLe := by rw [hrun]; exact hinv.createLe
      absent := ?_
      mutexFree := ?_
      mutexRun := ?_
      mutexExcl := ?_
      activeTmp := ?_
      active := ?_
      observed := ?_
      joined := ?_
      finished := ?_ }
  · intro j hle
    rw [hrun] at hle
    by_cases e : j = k
    · subst e; exact absurd hle hkcreated
    · rw [hj j e, bystander_pc _ _ (by rw [hinv.absent j hle]; simp)
        (by rw [hinv.absent j hle]; simp)]
      exact hinv.absent j hle
  · intro hfree
    rw [ht] at hfree
    rw [hrun]
    rcases hmutex with ⟨_, _, h3, _⟩ | ⟨h1, _, h3⟩ | ⟨h1, h2⟩
    · rw [h3] at hfree; exact absurd hfree (by simp)
    · constructor
      · by_contra hr
        have := hinv.mutexRun (by simpa using hr) k
        rw [h1] at this
        exact absurd this (by simp)
      · intro j
        by_cases e : j = k
        · subst e; rw [hk]; exact h3
        · rw [hj j e, bystander_holdsMutex]
          exact hinv.mutexExcl k j (fun x => e x.symm) h1
    · rw [h1] at hfree
      have hold := hinv.mutexFree hfree
      refine ⟨hold.1, fun j => ?_⟩
      by_cases e : j = k
      · subst e; rw [hk, h2]; exact hold.2 j
      · rw [hj j e, bystander_holdsMutex]
        exact hold.2 j
  · intro hr j
    rw [hrun] at hr
    have hold := hinv.mutexRun hr
    by_cases e : j = k
    · subst e
      rw [hk]
      rcases hmutex with ⟨h0, _, _, _⟩ | ⟨h1, _, _⟩ | ⟨_, h2⟩
      · have := (hinv.mutexFree h0).1
        rw [hr] at this
        exact absurd this (by simp)
      · rw [hold j] at h1
        exact absurd h1 (by simp)
      · rw [h2]; exact hold j
    · rw [hj j e, bystander_holdsMutex]
      exact hold j
  · intro a b hab ha
    by_cases ea : a = k
    · subst ea
      have eb : b ≠ a := fun x => hab x.symm
      rw [hj b eb, bystander_holdsMutex]
      rw [hk] at ha
      rcases hmutex with ⟨h0, _, _, _⟩ | ⟨_, _, h3⟩ | ⟨_, h2⟩
      · exact (hinv.mutexFree h0).2 b
      · rw [h3] at ha; exact absurd ha (by simp)
      · rw [h2] at ha
        exact hinv.mutexExcl a b hab ha
    · rw [hj a ea, bystander_holdsMutex] at ha
      by_cases eb : b = k
      · subst eb
        rw [hk]
        rcases hmutex with ⟨h0, _, _, _⟩ | ⟨_, _, h3⟩ | ⟨_, h2⟩
        · have := (hinv.mutexFree h0).2 a
          rw [ha] at this
          exact absurd this (by simp)
        · exact h3
        · rw [h2]
          exact hinv.mutexExcl a b hab ha
      · rw [hj b eb, bystander_holdsMutex]
        exact hinv.mutexExcl a b hab ha
  · intro j hpc
    rw [ht]
    by_cases e : j = k
    · subst e
      rw [hk] at hpc ⊢
      have := ThreadStart_step_activeTmp hst hpc
      rw [this.1, this.2]
    · rw [hj j e] at hpc ⊢
      have hpc' := bystander_pc_eq _ _ _ hpc (by simp)
      rw [bystander_tmp, hinv.activeTmp j hpc']
      rcases hactive with ⟨h1, _, _⟩ | ⟨h1, _⟩
      · have hj_holds : (s.workers j).pc.holdsMutex = true := by rw [hpc']; rfl
        have := hinv.mutexExcl j k e hj_holds
        rw [h1] at this
        exact absurd this (by simp [WorkerPc.holdsMutex])
      · rw [h1]
  · rw [ht]
    have hupd := total_update (fun x => if (s.workers x).pc.registered then (1 : Int) else 0)
      (fun x => if (s'.workers x).pc.registered then (1 : Int) else 0) k T hkT
      (fun x hx => by simp only [hj x hx, bystander_registered])
    simp only [hk] at hupd
    rw [hupd, ← hinv.active]
    have hbound : total (fun x => if (s'.workers x).pc.registered then (1 : Int) else 0) T
        ≤ T * 1 := total_le 1 _ T (fun x _ => by split <;> simp)
    simp only [hk] at hbound
    rw [hupd, ← hinv.active] at hbound
    rcases hactive with ⟨h1, h2, h3⟩ | ⟨h1, h2⟩
    · have htmp := hinv.activeTmp k h1
      rw [h3, htmp]
      rw [h1, h2] at hbound ⊢
      simp only [WorkerPc.registered] at hbound ⊢
      have hs := hinv.small
      have : (toUnsigned ((s.test.threads_active : Int) + 1) : Int)
          = (s.test.threads_active : Int) + 1 := by
        apply toUnsigned_of_range
        · omega
        · simp at hbound; omega
      rw [this]
      simp
    · rw [h1, h2]
      ring
  · intro hobs j hjT
    rw [hrun] at hobs
    have hold := hinv.observed hobs j hjT
    by_cases e : j = k
    · subst e
      rw [hk]
      rcases hactive with ⟨_, h2, _⟩ | ⟨_, h2⟩
      · rw [h2]; rfl
      · rw [h2]; exact hold
    · rw [hj j e, bystander_registered]
      exact hold
  · intro i hi j hji
    rw [hrun] at hi
    have hold := hinv.joined i hi j hji
    by_cases e : j = k
    · subst e; exact absurd hold halive.2.1
    · rw [hj j e, bystander_pc _ _ (by rw [hold]; simp) (by rw [hold]; simp)]
      exact hold
  · intro hfin j hjT
    rw [hrun] at hfin
    have hold := hinv.finished hfin j hjT
    by_cases e : j = k
    · subst e; exact absurd hold halive.2.1
    · rw [hj j e, bystander_pc _ _ (by rw [hold]; simp) (by rw [hold]; simp)]
      exact hold

/-! ## One statement of `HtmrefPerfTest_Run` -/

theorem Run_step_frame {s s' : System} {ev : Event}
    (h : HtmrefPerfTest_Run.step s ev = some s') :
    s'.test.n_threads = s.test.n_threads ∧ s'.test.n_iterations = s.test.n_iterations ∧
      s'.test.worker_func = s.test.worker_func ∧
      s'.test.threads_active = s.test.threads_active ∧
      s'.test.counter = s.test.counter ∧ s'.test.spin = s.test.spin := by
  obtain ⟨test, run, workers⟩ := s
  cases run <;> cases ev <;> simp only [HtmrefPerfTest_Run.step] at h <;>
    (try contradiction) <;> (try split at h) <;> (try split at h) <;>
    (try contradiction) <;>
    simp only [Option.some.injEq] at h <;> subst h <;> simp

theorem Run_step_workers {s s' : System} {ev : Event}
    (h : HtmrefPerfTest_Run.step s ev = some s') (j : Nat) :
    s'.workers j = s.workers j ∨
      (s.run = .create j ∧ s'.workers j = Worker.fresh) ∨
      ((s.workers j).pc = .blocked ∧ s'.workers j = { s.workers j with pc := .reacquire } ∧
        s.run = .broadcast) := by
  obtain ⟨test, run, workers⟩ := s
  cases run <;> cases ev <;> simp only [HtmrefPerfTest_Run.step] at h <;>
    (try contradiction) <;> (try split at h) <;> (try split at h) <;>
    (try contradiction) <;>
    simp only [Option.some.injEq] at h <;> subst h <;> dsimp only <;>
    (try (exact Or.inl rfl))
  · next i _ =>
    by_cases e : j = i
    · right; left; exact ⟨by rw [e], by simp [e]⟩
    · left; simp [e]
  · by_cases e : (workers j).pc = .blocked
    · right; right; exact ⟨e, by simp [e], rfl⟩
    · left; simp [e]

theorem Run_step_createIndex {s s' : System} {ev : Event} (T : Nat)
    (h : HtmrefPerfTest_Run.step s ev = some s') (hT : s.test.n_threads = T)
    (hle : s.run.createIndex T ≤ T) :
    s.run.createIndex T ≤ s'.run.createIndex T ∧ s'.run.createIndex T ≤ T ∧
      ∀ i, s.run = .create i → i < s'.run.createIndex T ∨ s'.workers i = s.workers i := by
  obtain ⟨test, run, workers⟩ := s
  dsimp only at hT hle
  cases run <;> cases ev <;> simp only [HtmrefPerfTest_Run.step] at h <;>
    (try contradiction) <;> (try split at h) <;> (try split at h) <;>
    (try contradiction) <;>
    simp only [Option.some.injEq] at h <;> subst h <;>
    simp_all [RunPc.createIndex] <;> omega

theorem Run_step_mutex {s s' : System} {ev : Event}
    (h : HtmrefPerfTest_Run.step s ev = some s') :
    (s.test.mutex = false ∧ s.run.holdsMutex = false ∧ s'.test.mutex = true ∧
        s'.run.holdsMutex = true) ∨
      (s.run.holdsMutex = true ∧ s'.test.mutex = false ∧ s'.run.holdsMutex = false) ∨
      (s'.test.mutex = s.test.mutex ∧ s'.run.holdsMutex = s.run.holdsMutex) := by
  obtain ⟨test, run, workers⟩ := s
  cases run <;> cases ev <;> simp only [HtmrefPerfTest_Run.step] at h <;>
    (try contradiction) <;> (try split at h) <;> (try split at h) <;>
    (try contradiction) <;>
    simp only [Option.some.injEq] at h <;> subst h <;>
    simp_all [RunPc.holdsMutex]

theorem Run_step_observed {s s' : System} {ev : Event}
    (h : HtmrefPerfTest_Run.step s ev = some s') (hobs : s'.run.observed = true) :
    s.run.observed = true ∨ (s.run = .pollRead ∧ s.test.threads_active = s.test.n_threads) := by
  obtain ⟨test, run, workers⟩ := s
  cases run <;> cases ev <;> simp only [HtmrefPerfTest_Run.step] at h <;>
    (try contradiction) <;> (try split at h) <;> (try split at h) <;>
    (try contradiction) <;>
    simp only [Option.some.injEq] at h <;> subst h <;>
    simp_all [RunPc.observed]
  all_goals (split at hobs <;> simp_all [RunPc.observed])

theorem Run_step_join {s s' : System} {ev : Event}
    (h : HtmrefPerfTest_Run.step s ev = some s') (i : Nat) (hi : s'.run = .join i) :
    i = 0 ∨ ∃ i', i = i' + 1 ∧ s.run = .join i' ∧ (s.workers i').pc = .returned := by
  obtain ⟨test, run, workers⟩ := s
  cases run <;> cases ev <;> simp only [HtmrefPerfTest_Run.step] at h <;>
    (try contradiction) <;> (try split at h) <;> (try split at h) <;>
    (try contradiction) <;>
    simp only [Option.some.injEq] at h <;> subst h <;>
    simp_all
  next i' _ _ => exact Or.inr ⟨i', hi.symm, rfl, by assumption⟩

theorem Run_step_finished {s s' : System} {ev : Event}
    (h : HtmrefPerfTest_Run.step s ev = some s')
    (hfin : s'.run = .stampEnd ∨ s'.run = .returned) :
    s.run = .stampEnd ∨ ∃ i, s.run = .join i ∧ ¬ i < s.test.n_threads := by
  obtain ⟨test, run, workers⟩ := s
  cases run <;> cases ev <;> simp only [HtmrefPerfTest_Run.step] at h <;>
    (try contradiction) <;> (try split at h) <;> (try split at h) <;>
    (try contradiction) <;>
    simp only [Option.some.injEq] at h <;> subst h <;>
    simp_all

theorem total_lt_of_zero (f : Nat → Int) (n j : Nat) (hj : j < n) (h : ∀ k, k < n → f k ≤ 1)
    (hz : f j ≤ 0) : total f n < n := by
  have hu := total_update f (fun k => if k = j then 1 else f k) j n hj
    (fun k hk => by simp [hk])
  have hle := total_le 1 (fun k => if k = j then 1 else f k) n (fun k hk => by
    by_cases e : k = j
    · simp [e]
    · simp only [e, if_false]; exact h k hk)
  simp only [if_true] at hu
  linarith

theorem Inv_runStep {T I : Nat} {f : HtmrefPerfTestFunc} {s s' : System} {ev : Event}
    (hinv : Inv T I f s) (h : HtmrefPerfTest_Run.step s ev = some s') : Inv T I f s' := by
  have hframe := Run_step_frame h
  have hci := Run_step_createIndex T h hinv.n_threads_eq hinv.createLe
  have hmutex := Run_step_mutex h
  have hfresh : ∀ j, s.run = .create j → (s.workers j).pc = .notCreated := fun j hj =>
    hinv.absent j (by rw [hj]; exact le_refl _)
  have hW : ∀ j, (s'.workers j).pc.holdsMutex = (s.workers j).pc.holdsMutex := by
    intro j
    rcases Run_step_workers h j with e | ⟨e1, e2⟩ | ⟨e1, e2, -⟩
    · rw [e]
    · rw [e2, hfresh j e1]; rfl
    · rw [e2, e1]; rfl
  have hReg : ∀ j, (s'.workers j).pc.registered = (s.workers j).pc.registered := by
    intro j
    rcases Run_step_workers h j with e | ⟨e1, e2⟩ | ⟨e1, e2, -⟩
    · rw [e]
    · rw [e2, hfresh j e1]; rfl
    · rw [e2, e1]; rfl
  have hRet : ∀ j, (s.workers j).pc = .returned → (s'.workers j).pc = .returned := by
    intro j hj
    rcases Run_step_workers h j with e | ⟨e1, _⟩ | ⟨e1, -, -⟩
    · rw [e]; exact hj
    · rw [hfresh j e1] at hj; exact absurd hj (by simp)
    · rw [e1] at hj; exact absurd hj (by simp)
  have hAS : ∀ j, (s'.workers j).pc = .activeStore → s'.workers j = s.workers j := by
    intro j hj
    rcases Run_step_workers h j with e | ⟨_, e2⟩ | ⟨-, e2, -⟩
    · exact e
    · rw [e2] at hj; exact absurd hj (by simp [Worker.fresh])
    · rw [e2] at hj; exact absurd hj (by simp)
  refine
    { n_threads_eq := by rw [hframe.1, hinv.n_threads_eq]
      n_iterations_eq := by rw [hframe.2.1, hinv.n_iterations_eq]
      worker_func_eq := by rw [hframe.2.2.1, hinv.worker_func_eq]
      small := hinv.small
      createLe := hci.2.1
      absent := ?_
      mutexFree := ?_
      mutexRun := ?_
      mutexExcl := ?_
      activeTmp := ?_
      active := ?_
      observed := ?_
      joined := ?_
      finished := ?_ }
  · intro j hle
    have hold := hinv.absent j (le_trans hci.1 hle)
    rcases Run_step_workers h j with e | ⟨e1, _⟩ | ⟨e1, -, -⟩
    · rw [e]; exact hold
    · rcases hci.2.2 j e1 with hlt | e
      · omega
      · rw [e]; exact hold
    · rw [hold] at e1; exact absurd e1 (by simp)
  · intro hfree
    rcases hmutex with ⟨_, _, h3, _⟩ | ⟨h1, _, h3⟩ | ⟨h1, h2⟩
    · rw [h3] at hfree; exact absurd hfree (by simp)
    · exact ⟨h3, fun j => by rw [hW]; exact hinv.mutexRun h1 j⟩
    · rw [h1] at hfree
      have hold := hinv.mutexFree hfree
      exact ⟨by rw [h2]; exact hold.1, fun j => by rw [hW]; exact hold.2 j⟩
  · intro hr j
    rw [hW]
    rcases hmutex with ⟨h0, _, _, _⟩ | ⟨_, _, h3⟩ | ⟨_, h2⟩
    · exact (hinv.mutexFree h0).2 j
    · rw [h3] at hr; exact absurd hr (by simp)
    · rw [h2] at hr; exact hinv.mutexRun hr j
  · intro a b hab ha
    rw [hW] at ha ⊢
    exact hinv.mutexExcl a b hab ha
  · intro j hj
    have e := hAS j hj
    rw [e] at hj ⊢
    rw [hframe.2.2.2.1]
    exact hinv.activeTmp j hj
  · rw [hframe.2.2.2.1, hinv.active]
    exact total_congr T (fun j _ => by simp only [hReg])
  · intro hobs j hjT
    rw [hReg]
    rcases Run_step_observed h hobs with hold | ⟨_, hta⟩
    · exact hinv.observed hold j hjT
    · by_contra hnot
      have hlt := total_lt_of_zero
        (fun k => if (s.workers k).pc.registered then (1 : Int) else 0) T j hjT
        (fun k _ => by dsimp only; split <;> simp) (by simp [hnot])
      rw [← hinv.active, hta, hinv.n_threads_eq] at hlt
      omega
  · intro i hi k hk
    rcases Run_step_join h i hi with e | ⟨i', e, hrun, hret⟩
    · omega
    · apply hRet
      by_cases hki : k = i'
      · rw [hki]; exact hret
      · exact hinv.joined i' hrun k (by omega)
  · intro hfin k hk
    apply hRet
    rcases Run_step_finished h hfin with hold | ⟨i, hrun, hi⟩
    · exact hinv.finished (Or.inl hold) k hk
    · rw [hinv.n_threads_eq] at hi
      exact hinv.joined i hrun k (by omega)

theorem Inv_wake {T I : Nat} {f : HtmrefPerfTestFunc} {s : System} {k : Nat}
    (hinv : Inv T I f s) (hpc : (s.workers k).pc = .blocked ∨ (s.workers k).pc = .xbegin ∨
      (s.workers k).pc = .txLoad ∨ (s.workers k).pc = .txStore ∨ (s.workers k).pc = .xend)
    (pc : WorkerPc) (hnew : pc = .reacquire ∨ pc = .fallbackAdd) :
    Inv T I f { s with
      workers := fun j => if j = k then { s.workers k with pc := pc } else s.workers j } := by
  have hW : ∀ j, ((fun j => if j = k then { s.workers k with pc := pc } else s.workers j) j
      ).pc.holdsMutex = (s.workers j).pc.holdsMutex := by
    intro j
    by_cases e : j = k
    · subst e
      rcases hpc with h | h | h | h | h <;> rcases hnew with h' | h' <;>
        simp [h, h', WorkerPc.holdsMutex]
    · simp [e]
  have hReg : ∀ j, ((fun j => if j = k then { s.workers k with pc := pc } else s.workers j) j
      ).pc.registered = (s.workers j).pc.registered := by
    intro j
    by_cases e : j = k
    · subst e
      rcases hpc with h | h | h | h | h <;> rcases hnew with h' | h' <;>
        simp [h, h', WorkerPc.registered]
    · simp [e]
  have hOther : ∀ j (q : WorkerPc), q ≠ .reacquire → q ≠ .fallbackAdd →
      ((fun j => if j = k then { s.workers k with pc := pc } else s.workers j) j).pc = q →
      j ≠ k := by
    intro j q h1 h2 hq e
    subst e
    rcases hnew with h' | h' <;> simp [h'] at hq
    · exact h1 hq.symm
    · exact h2 hq.symm
  have hOld : ∀ j (q : WorkerPc), q ≠ .blocked → q ≠ .xbegin → q ≠ .txLoad → q ≠ .txStore →
      q ≠ .xend → (s.workers j).pc = q → j ≠ k := by
    intro j q h1 h2 h3 h4 h5 hq e
    subst e
    rw [hq] at hpc
    rcases hpc with h | h | h | h | h
    · exact h1 h
    · exact h2 h
    · exact h3 h
    · exact h4 h
    · exact h5 h
  refine
    { n_threads_eq := hinv.n_threads_eq
      n_iterations_eq := hinv.n_iterations_eq
      worker_func_eq := hinv.worker_func_eq
      small := hinv.small
      createLe := hinv.createLe
      absent := ?_
      mutexFree := fun hfree => ⟨(hinv.mutexFree hfree).1, fun j => by
        rw [hW]; exact (hinv.mutexFree hfree).2 j⟩
      mutexRun := fun hr j => by rw [hW]; exact hinv.mutexRun hr j
      mutexExcl := fun a b hab ha => by
        rw [hW] at ha ⊢
        exact hinv.mutexExcl a b hab ha
      activeTmp := ?_
      active := by
        rw [hinv.active]
        exact total_congr T (fun j _ => by rw [hReg])
      observed := fun hobs j hjT => by rw [hReg]; exact hinv.observed hobs j hjT
      joined := ?_
      finished := ?_ }
  · intro j hle
    have hold := hinv.absent j hle
    have e := hOld j _ (by simp) (by simp) (by simp) (by simp) (by simp) hold
    simp only [e, if_false]
    exact hold
  · intro j hj
    have e := hOther j _ (by simp) (by simp) hj
    simp only [e, if_false] at hj ⊢
    exact hinv.activeTmp j hj
  · intro i hi j hji
    have hold := hinv.joined i hi j hji
    have e := hOld j _ (by simp) (by simp) (by simp) (by simp) (by simp) hold
    simp only [e, if_false]
    exact hold
  · intro hfin j hjT
    have hold := hinv.finished hfin j hjT
    have e := hOld j _ (by simp) (by simp) (by simp) (by simp) (by simp) hold
    simp only [e, if_false]
    exact hold

theorem Inv_step {T I : Nat} {f : HtmrefPerfTestFunc} {s s' : System} {ev : Event}
    (hinv : Inv T I f s) (h : step s ev = some s') : Inv T I f s' := by
  cases ev with
  | run => exact Inv_runStep hinv h
  | runFails => exact Inv_runStep hinv h
  | runClock ts => exact Inv_runStep hinv h
  | worker k => exact Inv_workerStep hinv h
  | spuriousWakeup k =>
    simp only [step] at h
    split at h
    · next hpc =>
      simp only [Option.some.injEq] at h
      subst h
      exact Inv_wake hinv (Or.inl hpc) _ (Or.inl rfl)
    · contradiction
  | txAbort k =>
    simp only [step] at h
    split at h
    · next hpc =>
      simp only [Option.some.injEq] at h
      subst h
      exact Inv_wake hinv (Or.inr hpc) _ (Or.inr rfl)
    · contradiction

theorem Inv_execute {T I : Nat} {f : HtmrefPerfTestFunc} (events : List Event) :
    ∀ {s s' : System}, Inv T I f s → execute s events = some s' → Inv T I f s' := by
  induction events with
  | nil =>
    intro s s' hinv h
    simp only [execute, Option.some.injEq] at h
    subst h
    exact hinv
  | cons ev rest ih =>
    intro s s' hinv h
    simp only [execute] at h
    split at h
    · contradiction
    · next s1 hs1 => exact ih (Inv_step hinv hs1) h

theorem total_zero (n : Nat) : total (fun _ => 0) n = 0 := by
  induction n with
  | zero => rfl
  | succ n ih => simp [total, ih]

theorem Inv_initial (prior : HtmrefPerfTest) (f : HtmrefPerfTestFunc) (n_threads n_iterations : Int)
    (hT : 0 < n_threads ∧ n_threads ≤ 2 ^ 31 - 1)
    (hI : 0 < n_iterations ∧ n_iterations ≤ 2 ^ 31 - 1) :
    Inv n_threads.toNat n_iterations.toNat f
      (initial (HtmrefPerfTest_Init prior f n_threads n_iterations)) := by
  have hf := Init_fields prior f n_threads n_iterations hT hI
  refine
    { n_threads_eq := by simp only [initial]; omega
      n_iterations_eq := by simp only [initial]; omega
      worker_func_eq := rfl
      small := by omega
      createLe := by simp [initial, RunPc.createIndex]
      absent := fun k _ => rfl
      mutexFree := fun _ => ⟨rfl, fun _ => rfl⟩
      mutexRun := fun h => by simp [initial, RunPc.holdsMutex] at h
      mutexExcl := fun _ _ _ h => by simp [initial, Worker.absent, WorkerPc.holdsMutex] at h
      activeTmp := fun _ h => by simp [initial, Worker.absent] at h
      active := ?_
      observed := fun h => by simp [initial, RunPc.observed] at h
      joined := fun _ h => by simp [initial] at h
      finished := fun h => by simp [initial] at h }
  simp only [initial, Worker.absent, WorkerPc.registered, HtmrefPerfTest_Init]
  simp [total_zero]

/-! ## A failed `pthread_create` -/

theorem step_test_run {s s' : System} {ev : Event} (h : step s ev = some s') (k : Nat)
    (hk : (s.workers k).pc = .notCreated) :
    s'.test.n_threads = s.test.n_threads ∧
      (s'.workers k = s.workers k ∨ (s.run = .create k ∧ s'.workers k = Worker.fresh)) := by
  cases ev with
  | run =>
    refine ⟨(Run_step_frame h).1, ?_⟩
    rcases Run_step_workers h k with e | e | ⟨e, -, -⟩
    · exact Or.inl e
    · exact Or.inr e
    · rw [hk] at e; exact absurd e (by simp)
  | runFails =>
    refine ⟨(Run_step_frame h).1, ?_⟩
    rcases Run_step_workers h k with e | e | ⟨e, -, -⟩
    · exact Or.inl e
    · exact Or.inr e
    · rw [hk] at e; exact absurd e (by simp)
  | runClock ts =>
    refine ⟨(Run_step_frame h).1, ?_⟩
    rcases Run_step_workers h k with e | e | ⟨e, -, -⟩
    · exact Or.inl e
    · exact Or.inr e
    · rw [hk] at e; exact absurd e (by simp)
  | worker j =>
    obtain ⟨t, w, st, hst, ht, _, _, hj⟩ := workerStep_eq h
    refine ⟨by rw [ht, (ThreadStart_step_frame hst).1], Or.inl ?_⟩
    have hne : k ≠ j := by
      intro e
      subst e
      exact (ThreadStart_step_alive hst).1 hk
    rw [hj k hne]
    rcases bystander_cases st (s.workers k) with e | ⟨e, _⟩
    · exact e
    · rw [hk] at e; simp at e
  | spuriousWakeup j =>
    simp only [step] at h
    split at h
    · next hpc =>
      simp only [Option.some.injEq] at h
      subst h
      refine ⟨rfl, Or.inl ?_⟩
      have hne : k ≠ j := by
        intro e
        subst e
        rw [hk] at hpc
        exact absurd hpc (by simp)
      simp [hne]
    · contradiction
  | txAbort j =>
    simp only [step] at h
    split at h
    · next hpc =>
      simp only [Option.some.injEq] at h
      subst h
      refine ⟨rfl, Or.inl ?_⟩
      have hne : k ≠ j := by
        intro e
        subst e
        rw [hk] at hpc
        simp at hpc
      simp [hne]
    · contradiction

theorem step_createIndex {T I : Nat} {f : HtmrefPerfTestFunc} {s s' : System} {ev : Event}
    (hinv : Inv T I f s) (h : step s ev = some s') :
    s.run.createIndex T ≤ s'.run.createIndex T ∧
      ∀ i, s.run = .create i → i < s'.run.createIndex T ∨ s'.workers i = s.workers i := by
  cases ev with
  | run =>
    have := Run_step_createIndex T h hinv.n_threads_eq hinv.createLe
    exact ⟨this.1, this.2.2⟩
  | runFails =>
    have := Run_step_createIndex T h hinv.n_threads_eq hinv.createLe
    exact ⟨this.1, this.2.2⟩
  | runClock ts =>
    have := Run_step_createIndex T h hinv.n_threads_eq hinv.createLe
    exact ⟨this.1, this.2.2⟩
  | worker j =>
    obtain ⟨t, w, st, hst, _, hrun, _, hj⟩ := workerStep_eq h
    rw [hrun]
    refine ⟨le_refl _, fun i hi => Or.inr ?_⟩
    have hi0 := hinv.absent i (by rw [hi]; exact le_refl _)
    have hne : i ≠ j := by
      intro e
      subst e
      exact (ThreadStart_step_alive hst).1 hi0
    rw [hj i hne]
    rcases bystander_cases st (s.workers i) with e | ⟨e, _⟩
    · exact e
    · rw [hi0] at e; simp at e
  | spuriousWakeup j =>
    simp only [step] at h
    split at h
    · next hpc =>
      simp only [Option.some.injEq] at h
      subst h
      refine ⟨le_refl _, fun i hi => Or.inr ?_⟩
      have hi0 := hinv.absent i (by rw [hi]; exact le_refl _)
      have hne : i ≠ j := by
        intro e
        subst e
        rw [hi0] at hpc
        exact absurd hpc (by simp)
      simp [hne]
    · contradiction
  | txAbort j =>
    simp only [step] at h
    split at h
    · next hpc =>
      simp only [Option.some.injEq] at h
      subst h
      refine ⟨le_refl _, fun i hi => Or.inr ?_⟩
      have hi0 := hinv.absent i (by rw [hi]; exact le_refl _)
      have hne : i ≠ j := by
        intro e
        subst e
        rw [hi0] at hpc
        simp at hpc
      simp [hne]
    · contradiction

theorem CreateFailed_step {T I : Nat} {f : HtmrefPerfTestFunc} {s s' : System} {ev : Event}
    (hinv : Inv T I f s) (hcf : CreateFailed s) (h : step s ev = some s') : CreateFailed s' := by
  obtain ⟨k, hkT, hki, hk⟩ := hcf
  have h1 := step_test_run h k hk
  have h2 := step_createIndex hinv h
  rw [hinv.n_threads_eq] at hkT hki
  have hT' : s'.test.n_threads = T := by rw [h1.1, hinv.n_threads_eq]
  refine ⟨k, by rw [hT']; exact hkT, by rw [hT']; omega, ?_⟩
  rcases h1.2 with e | ⟨e, _⟩
  · rw [e]; exact hk
  · rw [e] at hki
    simp [RunPc.createIndex] at hki

theorem CreateFailed_execute {T I : Nat} {f : HtmrefPerfTestFunc} (events : List Event) :
    ∀ {s s' : System}, Inv T I f s → CreateFailed s → execute s events = some s' →
      CreateFailed s' := by
  induction events with
  | nil =>
    intro s s' _ hcf h
    simp only [execute, Option.some.injEq] at h
    subst h
    exact hcf
  | cons ev rest ih =>
    intro s s' hinv hcf h
    simp only [execute] at h
    split at h
    · contradiction
    · next s1 hs1 => exact ih (Inv_step hinv hs1) (CreateFailed_step hinv hcf hs1) h

theorem CreateFailed_stuck {T I : Nat} {f : HtmrefPerfTestFunc} {s : System}
    (hinv : Inv T I f s) (hcf : CreateFailed s) :
    s.run ≠ .aborted ∧ s.run.observed = false := by
  obtain ⟨k, hkT, hki, hk⟩ := hcf
  constructor
  · intro e
    rw [e] at hki
    simp [RunPc.createIndex] at hki
  · by_contra hobs
    have := hinv.observed (by simpa using hobs) k (by rw [← hinv.n_threads_eq]; exact hkT)
    rw [hk] at this
    simp [WorkerPc.registered] at this

/-! ## The counter -/

theorem total_const (c : Int) (f : Nat → Int) (n : Nat) (h : ∀ k, k < n → f k = c) :
    total f n = n * c := by
  induction n with
  | zero => simp [total]
  | succ n ih =>
    simp only [total]
    rw [ih (fun k hk => h k (by omega)), h n (by omega)]
    push_cast
    ring

theorem total_nonneg (f : Nat → Int) (n : Nat) (h : ∀ k, k < n → 0 ≤ f k) :
    0 ≤ total f n := by
  induction n with
  | zero => simp [total]
  | succ n ih =>
    simp only [total]
    have h1 := ih (fun k hk => h k (by omega))
    have h2 := h n (by omega)
    linarith

theorem inBounds_increments {n : Nat} {w : Worker} (h : w.inBounds n) :
    0 ≤ w.increments ∧ w.increments ≤ n := by
  obtain ⟨pc, i, tmp⟩ := w
  cases pc <;> simp [Worker.inBounds, Worker.increments] at h ⊢ <;> omega

theorem returned_increments {n : Nat} {w : Worker} (h : w.inBounds n) (hpc : w.pc = .returned) :
    w.increments = n := by
  obtain ⟨pc, i, tmp⟩ := w
  simp only at hpc
  subst hpc
  simp [Worker.inBounds, Worker.increments] at h ⊢
  exact h

theorem ThreadStart_step_func {t0 t : HtmrefPerfTest} {w0 w : Worker} {st : Bool}
    (h : HtmrefPerfTest_ThreadStart.step t0 w0 = some (t, w, st)) :
    w.pc.func = none ∨ w.pc.func = w0.pc.func ∨ w.pc.func = t0.worker_func := by
  unfold HtmrefPerfTest_ThreadStart.step at h
  split at h <;> (try split at h) <;> simp at h <;> (obtain ⟨rfl, rfl, rfl⟩ := h) <;>
    simp_all [WorkerPc.func]

theorem ThreadStart_step_bounds {t0 t : HtmrefPerfTest} {w0 w : Worker} {st : Bool} {n : Nat}
    (h : HtmrefPerfTest_ThreadStart.step t0 w0 = some (t, w, st))
    (hn : t0.n_iterations = n) (hb : w0.inBounds n) : w.inBounds n := by
  unfold HtmrefPerfTest_ThreadStart.step at h
  split at h <;> (try split at h) <;> simp at h <;> (obtain ⟨rfl, rfl, rfl⟩ := h) <;>
    simp_all [Worker.inBounds] <;> omega

theorem ThreadStart_step_spin {t0 t : HtmrefPerfTest} {w0 w : Worker} {st : Bool}
    (h : HtmrefPerfTest_ThreadStart.step t0 w0 = some (t, w, st)) :
    (t0.spin = false ∧ w0.pc.holdsSpin = false ∧ t.spin = true ∧ w.pc.holdsSpin = true) ∨
    (w0.pc.holdsSpin = true ∧ t.spin = false ∧ w.pc.holdsSpin = false) ∨
    (t.spin = t0.spin ∧ w.pc.holdsSpin = w0.pc.holdsSpin) := by
  unfold HtmrefPerfTest_ThreadStart.step at h
  split at h <;> (try split at h) <;> simp at h <;> (obtain ⟨rfl, rfl, rfl⟩ := h) <;>
    simp_all [WorkerPc.holdsSpin]

theorem ThreadStart_step_counter {t0 t : HtmrefPerfTest} {w0 w : Worker} {st : Bool}
    (h : HtmrefPerfTest_ThreadStart.step t0 w0 = some (t, w, st))
    (hf : w0.pc.func ≠ some .HtmrefPerfTest_Addq)
    (hs : w0.pc = .spinStore → w0.tmp = t0.counter)
    (hx : w0.pc = .xend → w0.tmp = wrapInt64 (t0.counter + 1))
    (hw : wrapInt64 (t0.counter + 1) = t0.counter + 1) :
    t.counter = t0.counter + (w.increments - w0.increments) ∧
      (st = false → t.counter = t0.counter) := by
  unfold HtmrefPerfTest_ThreadStart.step at h
  split at h <;> (try split at h) <;> simp at h <;> (obtain ⟨rfl, rfl, rfl⟩ := h) <;>
    simp_all [Worker.increments, WorkerPc.func]

theorem ThreadStart_step_stored {t0 t : HtmrefPerfTest} {w0 w : Worker} {st : Bool}
    (h : HtmrefPerfTest_ThreadStart.step t0 w0 = some (t, w, st)) (hst : st = true) :
    w0.pc.func ≠ none ∧ (w0.pc.func = some .HtmrefPerfTest_Spinlock → w0.pc = .spinStore) := by
  unfold HtmrefPerfTest_ThreadStart.step at h
  split at h <;> (try split at h) <;> simp at h <;> (obtain ⟨rfl, rfl, rfl⟩ := h) <;>
    simp_all [WorkerPc.func]

theorem ThreadStart_step_tmp {t0 t : HtmrefPerfTest} {w0 w : Worker} {st : Bool}
    (h : HtmrefPerfTest_ThreadStart.step t0 w0 = some (t, w, st))
    (hx : w0.pc = .txStore → w0.tmp = t0.counter) :
    (w.pc = .spinStore → w.tmp = t.counter) ∧ (w.pc = .txStore → w.tmp = t.counter) ∧
      (w.pc = .xend → w.tmp = wrapInt64 (t.counter + 1)) := by
  unfold HtmrefPerfTest_ThreadStart.step at h
  split at h <;> (try split at h) <;> simp at h <;> (obtain ⟨rfl, rfl, rfl⟩ := h) <;>
    simp_all

theorem bystander_true_not_tx (w : Worker) :
    (bystander true w).pc ≠ .txStore ∧ (bystander true w).pc ≠ .xend := by
  unfold bystander abortConflicting
  simp only [if_true]
  split
  · simp
  · next h => push_neg at h; exact h

theorem bystander_false (w : Worker) : bystander false w = w := by
  simp [bystander]

theorem counter_bounds {T I : Nat} {f : HtmrefPerfTestFunc} {s : System}
    (hc : CounterInv T I f s) (hT : T < 2 ^ 31) (hI : I < 2 ^ 31) :
    0 ≤ s.test.counter ∧ s.test.counter ≤ 2 ^ 62 := by
  rw [hc.sum]
  constructor
  · exact total_nonneg _ T (fun k _ => (inBounds_increments (hc.bounds k)).1)
  · have h1 := total_le I (fun k => (s.workers k).increments) T
      (fun k _ => (inBounds_increments (hc.bounds k)).2)
    have h2 : (T : Int) * I ≤ 2 ^ 31 * 2 ^ 31 :=
      mul_le_mul (by exact_mod_cast hT.le) (by exact_mod_cast hI.le) (by positivity)
        (by positivity)
    have h3 : (2 : Int) ^ 31 * 2 ^ 31 = 2 ^ 62 := by norm_num
    linarith

theorem CounterInv_workerStep {T I : Nat} {f : HtmrefPerfTestFunc} {s s' : System} {k : Nat}
    (hf : f ≠ .HtmrefPerfTest_Addq) (hT : T < 2 ^ 31) (hI : I < 2 ^ 31)
    (hinv : Inv T I f s) (hc : CounterInv T I f s) (h : workerStep s k = some s') :
    CounterInv T I f s' := by
  obtain ⟨t, w, st, hst, ht, hrun, hk, hj⟩ := workerStep_eq h
  have halive := ThreadStart_step_alive hst
  have hkT : k < T := by
    by_contra hge
    exact halive.1 (hinv.absent k (le_trans hinv.createLe (by omega)))
  have hcb := counter_bounds hc hT hI
  have hwrap : wrapInt64 (s.test.counter + 1) = s.test.counter + 1 :=
    wrapInt64_of_range (by omega) (by omega)
  have hfk : (s.workers k).pc.func ≠ some .HtmrefPerfTest_Addq := by
    rcases hc.funcs k with e | e
    · rw [e]; simp
    · rw [e]; simpa using hf
  have hcounter := ThreadStart_step_counter hst hfk (hc.spinTmp k) (hc.xendTmp k) hwrap
  have hspin := ThreadStart_step_spin hst
  have htmp := ThreadStart_step_tmp hst (hc.txTmp k)
  have hstill : ∀ j, j ≠ k → (s.workers j).pc.holdsSpin = true → t.counter = s.test.counter := by
    intro j hne hj_spin
    cases hst' : st with
    | false => exact hcounter.2 hst'
    | true =>
      have hstored := ThreadStart_step_stored hst hst'
      have hfj : (s.workers j).pc.func = some .HtmrefPerfTest_Spinlock := by
        revert hj_spin
        cases (s.workers j).pc <;> simp [WorkerPc.holdsSpin, WorkerPc.func]
      have hfS : f = .HtmrefPerfTest_Spinlock := by
        rcases hc.funcs j with e | e
        · rw [e] at hfj; simp at hfj
        · rw [e] at hfj; simpa using hfj
      have hfk' : (s.workers k).pc.func = some .HtmrefPerfTest_Spinlock := by
        rcases hc.funcs k with e | e
        · exact absurd e hstored.1
        · rw [e, hfS]
      have hkpc := hstored.2 hfk'
      have := hc.spinExcl j k hne hj_spin
      rw [hkpc] at this
      simp [WorkerPc.holdsSpin] at this
  refine
    { funcs := ?_
      bounds := ?_
      spinFree := ?_
      spinExcl := ?_
      spinTmp := ?_
      txTmp := ?_
      xendTmp := ?_
      sum := ?_ }
  · intro j
    by_cases e : j = k
    · subst e
      rw [hk]
      rcases ThreadStart_step_func hst with e1 | e1 | e1
      · exact Or.inl e1
      · rw [e1]; exact hc.funcs j
      · rw [e1, hinv.worker_func_eq]; exact Or.inr rfl
    · rw [hj j e, bystander_func]
      exact hc.funcs j
  · intro j
    by_cases e : j = k
    · subst e
      rw [hk]
      exact ThreadStart_step_bounds hst hinv.n_iterations_eq (hc.bounds j)
    · rw [hj j e, bystander_inBounds]
      exact hc.bounds j
  · intro hfree j
    rw [ht] at hfree
    rcases hspin with ⟨_, _, h3, _⟩ | ⟨h1, _, h3⟩ | ⟨h1, h2⟩
    · rw [h3] at hfree; exact absurd hfree (by simp)
    · by_cases e : j = k
      · subst e; rw [hk]; exact h3
      · rw [hj j e, bystander_holdsSpin]
        exact hc.spinExcl k j (fun x => e x.symm) h1
    · rw [h1] at hfree
      by_cases e : j = k
      · subst e; rw [hk, h2]; exact hc.spinFree hfree j
      · rw [hj j e, bystander_holdsSpin]
        exact hc.spinFree hfree j
  · intro a b hab ha
    by_cases ea : a = k
    · subst ea
      have eb : b ≠ a := fun x => hab x.symm
      rw [hj b eb, bystander_holdsSpin]
      rw [hk] at ha
      rcases hspin with ⟨h0, _, _, _⟩ | ⟨_, _, h3⟩ | ⟨_, h2⟩
      · exact hc.spinFree h0 b
      · rw [h3] at ha; exact absurd ha (by simp)
      · rw [h2] at ha
        exact hc.spinExcl a b hab ha
    · rw [hj a ea, bystander_holdsSpin] at ha
      by_cases eb : b = k
      · subst eb
        rw [hk]
        rcases hspin with ⟨h0, _, _, _⟩ | ⟨_, _, h3⟩ | ⟨_, h2⟩
        · have := hc.spinFree h0 a
          rw [ha] at this
          exact absurd this (by simp)
        · exact h3
        · rw [h2]
          exact hc.spinExcl a b hab ha
      · rw [hj b eb, bystander_holdsSpin]
        exact hc.spinExcl a b hab ha
  · intro j hpc
    rw [ht]
    by_cases e : j = k
    · subst e
      rw [hk] at hpc ⊢
      exact htmp.1 hpc
    · rw [hj j e] at hpc ⊢
      have hpc' := bystander_pc_eq _ _ _ hpc (by simp)
      rw [bystander_tmp, hc.spinTmp j hpc']
      exact (hstill j e (by rw [hpc']; rfl)).symm
  · intro j hpc
    rw [ht]
    by_cases e : j = k
    · subst e
      rw [hk] at hpc ⊢
      exact htmp.2.1 hpc
    · rw [hj j e] at hpc ⊢
      cases hst' : st with
      | true =>
        rw [hst'] at hpc
        exact absurd hpc (bystander_true_not_tx _).1
      | false =>
        rw [hst', bystander_false] at hpc
        rw [bystander_tmp, hc.txTmp j hpc, hcounter.2 hst']
  · intro j hpc
    rw [ht]
    by_cases e : j = k
    · subst e
      rw [hk] at hpc ⊢
      exact htmp.2.2 hpc
    · rw [hj j e] at hpc ⊢
      cases hst' : st with
      | true =>
        rw [hst'] at hpc
        exact absurd hpc (bystander_true_not_tx _).2
      | false =>
        rw [hst', bystander_false] at hpc
        rw [bystander_tmp, hc.xendTmp j hpc, hcounter.2 hst']
  · rw [ht]
    have hupd := total_update (fun x => (s.workers x).increments)
      (fun x => (s'.workers x).increments) k T hkT
      (fun x hx => by simp only [hj x hx, bystander_increments])
    simp only [hk] at hupd
    rw [hupd, ← hc.sum, hcounter.1]
    ring

theorem SameWorker_refl (I : Nat) (w : Worker) : SameWorker I w w :=
  ⟨rfl, id, rfl, rfl, fun _ => rfl⟩

theorem CounterInv_of_same {T I : Nat} {f : HtmrefPerfTestFunc} {s s' : System}
    (hc : CounterInv T I f s) (hcounter : s'.test.counter = s.test.counter)
    (hspin : s'.test.spin = s.test.spin)
    (hsame : ∀ j, SameWorker I (s.workers j) (s'.workers j)) : CounterInv T I f s' :=
  { funcs := fun j => by rw [(hsame j).1]; exact hc.funcs j
    bounds := fun j => (hsame j).2.1 (hc.bounds j)
    spinFree := fun hfree j => by
      rw [(hsame j).2.2.1]
      exact hc.spinFree (by rw [← hspin]; exact hfree) j
    spinExcl := fun a b hab ha => by
      rw [(hsame a).2.2.1] at ha
      rw [(hsame b).2.2.1]
      exact hc.spinExcl a b hab ha
    spinTmp := fun j hpc => by
      have e := (hsame j).2.2.2.2 (Or.inl hpc)
      rw [e] at hpc ⊢
      rw [hcounter]
      exact hc.spinTmp j hpc
    txTmp := fun j hpc => by
      have e := (hsame j).2.2.2.2 (Or.inr (Or.inl hpc))
      rw [e] at hpc ⊢
      rw [hcounter]
      exact hc.txTmp j hpc
    xendTmp := fun j hpc => by
      have e := (hsame j).2.2.2.2 (Or.inr (Or.inr hpc))
      rw [e] at hpc ⊢
      rw [hcounter]
      exact hc.xendTmp j hpc
    sum := by
      rw [hcounter, hc.sum]
      exact total_congr T (fun j _ => by rw [(hsame j).2.2.2.1]) }

theorem SameWorker_fresh (I : Nat) (w : Worker) (h : w.pc = .notCreated) :
    SameWorker I w Worker.fresh := by
  refine ⟨by rw [h]; rfl, fun _ => by simp [Worker.fresh, Worker.inBounds], by rw [h]; rfl,
    by simp [Worker.fresh, Worker.increments, h], ?_⟩
  intro hp
  simp [Worker.fresh] at hp

theorem SameWorker_wake (I : Nat) (w : Worker) (h : w.pc = .blocked) :
    SameWorker I w { w with pc := .reacquire } := by
  refine ⟨by rw [h]; rfl, fun _ => by simp [Worker.inBounds], by rw [h]; rfl,
    by simp [Worker.increments, h], ?_⟩
  intro hp
  simp at hp

theorem SameWorker_abort (I : Nat) (w : Worker)
    (h : w.pc = .xbegin ∨ w.pc = .txLoad ∨ w.pc = .txStore ∨ w.pc = .xend) :
    SameWorker I w { w with pc := .fallbackAdd } := by
  refine ⟨?_, ?_, ?_, ?_, ?_⟩
  · rcases h with h | h | h | h <;> rw [h] <;> rfl
  · intro hb
    rcases h with h | h | h | h <;> simp [Worker.inBounds, h] at hb ⊢ <;> exact hb
  · rcases h with h | h | h | h <;> rw [h] <;> rfl
  · rcases h with h | h | h | h <;> simp [Worker.increments, h]
  · intro hp
    simp at hp

theorem CounterInv_runStep {T I : Nat} {f : HtmrefPerfTestFunc} {s s' : System} {ev : Event}
    (hinv : Inv T I f s) (hc : CounterInv T I f s)
    (h : HtmrefPerfTest_Run.step s ev = some s') : CounterInv T I f s' := by
  have hframe := Run_step_frame h
  refine CounterInv_of_same hc hframe.2.2.2.2.1 hframe.2.2.2.2.2 (fun j => ?_)
  rcases Run_step_workers h j with e | ⟨e1, e2⟩ | ⟨e1, e2, -⟩
  · rw [e]; exact SameWorker_refl I _
  · rw [e2]
    exact SameWorker_fresh I _ (hinv.absent j (by rw [e1]; exact le_refl _))
  · rw [e2]
    exact SameWorker_wake I _ e1

theorem CounterInv_step {T I : Nat} {f : HtmrefPerfTestFunc} {s s' : System} {ev : Event}
    (hf : f ≠ .HtmrefPerfTest_Addq) (hT : T < 2 ^ 31) (hI : I < 2 ^ 31)
    (hinv : Inv T I f s) (hc : CounterInv T I f s) (h : step s ev = some s') :
    CounterInv T I f s' := by
  cases ev with
  | run => exact CounterInv_runStep hinv hc h
  | runFails => exact CounterInv_runStep hinv hc h
  | runClock ts => exact CounterInv_runStep hinv hc h
  | worker k => exact CounterInv_workerStep hf hT hI hinv hc h
  | spuriousWakeup k =>
    simp only [step] at h
    split at h
    · next hpc =>
      simp only [Option.some.injEq] at h
      subst h
      refine CounterInv_of_same hc rfl rfl (fun j => ?_)
      by_cases e : j = k
      · subst e
        simp only [if_true]
        exact SameWorker_wake I _ hpc
      · simp only [e, if_false]
        exact SameWorker_refl I _
    · contradiction
  | txAbort k =>
    simp only [step] at h
    split at h
    · next hpc =>
      simp only [Option.some.injEq] at h
      subst h
      refine CounterInv_of_same hc rfl rfl (fun j => ?_)
      by_cases e : j = k
      · subst e
        simp only [if_true]
        exact SameWorker_abort I _ hpc
      · simp only [e, if_false]
        exact SameWorker_refl I _
    · contradiction

theorem CounterInv_execute {T I : Nat} {f : HtmrefPerfTestFunc}
    (hf : f ≠ .HtmrefPerfTest_Addq) (hT : T < 2 ^ 31) (hI : I < 2 ^ 31) (events : List Event) :
    ∀ {s s' : System}, Inv T I f s → CounterInv T I f s → execute s events = some s' →
      CounterInv T I f s' := by
  induction events with
  | nil =>
    intro s s' _ hc h
    simp only [execute, Option.some.injEq] at h
    subst h
    exact hc
  | cons ev rest ih =>
    intro s s' hinv hc h
    simp only [execute] at h
    split at h
    · contradiction
    · next s1 hs1 => exact ih (Inv_step hinv hs1) (CounterInv_step hf hT hI hinv hc hs1) h

theorem CounterInv_initial (T I : Nat) (f : HtmrefPerfTestFunc) (test : HtmrefPerfTest)
    (h0 : test.counter = 0) : CounterInv T I f (initial test) :=
  { funcs := fun _ => Or.inl rfl
    bounds := fun _ => by simp [initial, Worker.absent, Worker.inBounds]
    spinFree := fun _ _ => rfl
    spinExcl := fun _ _ _ h => by simp [initial, Worker.absent, WorkerPc.holdsSpin] at h
    spinTmp := fun _ h => by simp [initial, Worker.absent] at h
    txTmp := fun _ h => by simp [initial, Worker.absent] at h
    xendTmp := fun _ h => by simp [initial, Worker.absent] at h
    sum := by
      simp only [initial, Worker.absent, Worker.increments, h0]
      exact (total_zero T).symm }

/-! ## The start barrier -/

theorem ThreadStart_step_woken {t0 t : HtmrefPerfTest} {w0 w : Worker} {st : Bool}
    (h : HtmrefPerfTest_ThreadStart.step t0 w0 = some (t, w, st)) (hw : w.pc.woken = true) :
    w0.pc.woken = true := by
  unfold HtmrefPerfTest_ThreadStart.step at h
  split at h <;> (try split at h) <;> simp at h <;> (obtain ⟨rfl, rfl, rfl⟩ := h) <;>
    simp_all [WorkerPc.woken]

theorem Run_step_released {s s' : System} {ev : Event}
    (h : HtmrefPerfTest_Run.step s ev = some s') :
    (s.run.released = true → s'.run.released = true) ∧
      (s.run = .broadcast → s'.run.released = true) := by
  obtain ⟨test, run, workers⟩ := s
  cases run <;> cases ev <;> simp only [HtmrefPerfTest_Run.step] at h <;>
    (try contradiction) <;> (try split at h) <;> (try split at h) <;>
    (try contradiction) <;>
    simp only [Option.some.injEq] at h <;> subst h <;>
    simp_all [RunPc.released]

theorem Barrier_step {s s' : System} {ev : Event}
    (hb : Barrier s) (hev : ∀ k, ev ≠ .spuriousWakeup k)
    (h : step s ev = some s') : Barrier s' := by
  have hrunStep : ∀ e, HtmrefPerfTest_Run.step s e = some s' → Barrier s' := by
    intro e he k hk
    have hrel := Run_step_released he
    rcases Run_step_workers he k with e1 | ⟨_, e2⟩ | ⟨-, -, e3⟩
    · rw [e1] at hk
      exact hrel.1 (hb k hk)
    · rw [e2] at hk
      simp [Worker.fresh, WorkerPc.woken] at hk
    · exact hrel.2 e3
  cases ev with
  | run => exact hrunStep _ h
  | runFails => exact hrunStep _ h
  | runClock ts => exact hrunStep _ h
  | worker j =>
    obtain ⟨t, w, st, hst, _, hrun, hk, hj⟩ := workerStep_eq h
    intro k hkw
    rw [hrun]
    by_cases e : k = j
    · subst e
      rw [hk] at hkw
      exact hb k (ThreadStart_step_woken hst hkw)
    · rw [hj k e, bystander_woken] at hkw
      exact hb k hkw
  | spuriousWakeup j => exact absurd rfl (hev j)
  | txAbort j =>
    simp only [step] at h
    split at h
    · next hpc =>
      simp only [Option.some.injEq] at h
      subst h
      intro k hkw
      by_cases e : k = j
      · subst e
        apply hb k
        rcases hpc with hpc | hpc | hpc | hpc <;> rw [hpc] <;> rfl
      · simp only [e, if_false] at hkw
        exact hb k hkw
    · contradiction

theorem Barrier_execute {T I : Nat} {f : HtmrefPerfTestFunc} (events : List Event) :
    ∀ {s s' : System}, Inv T I f s → Barrier s → noSpuriousWakeup events = true →
      execute s events = some s' → Barrier s' := by
  induction events with
  | nil =>
    intro s s' _ hb _ h
    simp only [execute, Option.some.injEq] at h
    subst h
    exact hb
  | cons ev rest ih =>
    intro s s' hinv hb hno h
    simp only [execute] at h
    split at h
    · contradiction
    · next s1 hs1 =>
      have hev : ∀ k, ev ≠ .spuriousWakeup k := by
        intro k e
        subst e
        simp [noSpuriousWakeup] at hno
      have hrest : noSpuriousWakeup rest = true := by
        cases ev <;> simp_all [noSpuriousWakeup]
      exact ih (Inv_step hinv hs1) (Barrier_step hb hev hs1) hrest h

theorem pastWait_woken (pc : WorkerPc) (h : pc.pastWait = true) : pc.woken = true := by
  cases pc <;> simp_all [WorkerPc.pastWait, WorkerPc.woken]

theorem released_observed (pc : RunPc) (h : pc.released = true) :
    pc.observed = true ∧ pc.begun = true := by
  cases pc <;> simp_all [RunPc.released, RunPc.observed, RunPc.begun]

/-- Without spurious wakeups the start barrier holds: in every state of every
execution, if some worker has returned from `pthread_cond_wait` then
`HtmrefPerfTest_Run` has stored `begin_at` and broadcast the condition, and
every one of the `n_threads` workers has registered. -/
theorem barrier_without_spurious_wakeup (prior : HtmrefPerfTest) (f : HtmrefPerfTestFunc)
    (n_threads n_iterations : Int)
    (hT : 0 < n_threads ∧ n_threads ≤ 2 ^ 31 - 1)
    (hI : 0 < n_iterations ∧ n_iterations ≤ 2 ^ 31 - 1)
    (events : List Event) (s : System) (hno : noSpuriousWakeup events = true)
    (h : execute (initial (HtmrefPerfTest_Init prior f n_threads n_iterations)) events = some s)
    (k : Nat) (hk : (s.workers k).pc.pastWait = true) :
    s.run.released = true ∧ s.run.begun = true ∧
      ∀ j : Nat, (j : Int) < n_threads → (s.workers j).pc.registered = true := by
  have hinv0 := Inv_initial prior f n_threads n_iterations hT hI
  have hinv := Inv_execute events hinv0 h
  have hb0 : Barrier (initial (HtmrefPerfTest_Init prior f n_threads n_iterations)) := by
    intro j hj
    simp [initial, Worker.absent, WorkerPc.woken] at hj
  have hb := Barrier_execute events hinv0 hb0 hno h
  have hrel := hb k (pastWait_woken _ hk)
  have hob := released_observed _ hrel
  exact ⟨hrel, hob.2, fun j hj => hinv.observed hob.1 j (by omega)⟩

/-- C1: for the atomic, spinlock and transactional strategies, every thread
count and iteration count that `HtmrefPerfTest_Init` accepts (positive `int`s),
and every execution of `HtmrefPerfTest_Run` on the initialised session (every
interleaving of the workers, every pattern of commits and aborts, spurious
wakeups and failing library calls included), a run that returns leaves the
counter at exactly `n_threads * n_iterations`. -/
theorem Run_counter_exact (f : HtmrefPerfTestFunc) (hf : f ≠ .HtmrefPerfTest_Addq)
    (prior : HtmrefPerfTest) (n_threads n_iterations : Int)
    (hT : 0 < n_threads ∧ n_threads ≤ 2 ^ 31 - 1)
    (hI : 0 < n_iterations ∧ n_iterations ≤ 2 ^ 31 - 1)
    (events : List Event) (s : System)
    (h : execute (initial (HtmrefPerfTest_Init prior f n_threads n_iterations)) events = some s)
    (hret : s.run = .returned) :
    s.test.counter = n_threads * n_iterations := by
  have hinv0 := Inv_initial prior f n_threads n_iterations hT hI
  have hc0 := CounterInv_initial n_threads.toNat n_iterations.toNat f
    (HtmrefPerfTest_Init prior f n_threads n_iterations) rfl
  have hinv := Inv_execute events hinv0 h
  have hc := CounterInv_execute hf (by omega) (by omega) events hinv0 hc0 h
  rw [hc.sum, total_const (n_iterations.toNat : Int) _ _ (fun k hk =>
    returned_increments (hc.bounds k) (hinv.finished (Or.inr hret) k hk))]
  have h1 : ((n_threads.toNat : Nat) : Int) = n_threads := by omega
  have h2 : ((n_iterations.toNat : Nat) : Int) = n_iterations := by omega
  rw [h1, h2]

theorem Run_counter_exact_witness :
    ∃ s, execute
        (initial (HtmrefPerfTest_Init ⟨true, none, 9, 9, 9, 9, 9, 9, true⟩
          .HtmrefPerfTest_IntelTsx 2 1)) tsxSchedule = some s ∧
      s.run = .returned ∧ s.test.counter = 2 * 1 := by
  have hsome : (execute
      (initial (HtmrefPerfTest_Init ⟨true, none, 9, 9, 9, 9, 9, 9, true⟩
        .HtmrefPerfTest_IntelTsx 2 1)) tsxSchedule).isSome = true := by decide
  have hrun : (execute
      (initial (HtmrefPerfTest_Init ⟨true, none, 9, 9, 9, 9, 9, 9, true⟩
        .HtmrefPerfTest_IntelTsx 2 1)) tsxSchedule).map (fun s => s.run)
      = some .returned := by decide
  cases h : execute
      (initial (HtmrefPerfTest_Init ⟨true, none, 9, 9, 9, 9, 9, 9, true⟩
        .HtmrefPerfTest_IntelTsx 2 1)) tsxSchedule with
  | none => rw [h] at hsome; exact absurd hsome (by simp)
  | some s =>
    rw [h] at hrun
    have hret : s.run = .returned := by simpa using hrun
    exact ⟨s, rfl, hret,
      Run_counter_exact .HtmrefPerfTest_IntelTsx (by decide) _ 2 1 (by decide) (by decide)
        tsxSchedule s h hret⟩

/-- Lost update: with the unsynchronised strategy two workers of one iteration
each can finish a run with the counter at 1. -/
theorem Addq_lost_update :
    (execute
        (initial (HtmrefPerfTest_Init ⟨false, none, 0, 0, 0, 0, 0, 0, false⟩
          .HtmrefPerfTest_Addq 2 1))
        [.run, .run, .run, .run,
          .worker 0, .worker 0, .worker 0, .worker 0,
          .worker 1, .worker 1, .worker 1, .worker 1,
          .run, .run, .run, .runClock ⟨10, 0⟩, .run, .run, .run,
          .worker 1, .worker 1, .worker 0, .worker 0,
          .worker 0, .worker 1, .worker 0, .worker 1, .worker 0, .worker 1,
          .worker 0, .worker 1, .worker 0, .worker 0, .worker 1, .worker 1,
          .run, .run, .run, .runClock ⟨10, 5000⟩]).map (fun s => (s.run, s.test.counter))
      = some (.returned, 1) := by decide

/-- C2: a spurious wakeup lets a worker through the barrier early.  With two
threads configured, worker 0 registers, blocks in `pthread_cond_wait`, wakes
spuriously and performs its increment while `HtmrefPerfTest_Run` is still in
its creation loop: the second thread does not exist yet, nothing has been
observed or broadcast, and `begin_at` is still the 0 of initialisation. -/
theorem spurious_wakeup_breaks_barrier :
    (execute
        (initial (HtmrefPerfTest_Init ⟨false, none, 0, 0, 0, 0, 0, 0, false⟩
          .HtmrefPerfTest_Atomic 2 1))
        [.run, .run, .worker 0, .worker 0, .worker 0, .worker 0, .spuriousWakeup 0,
          .worker 0, .worker 0, .worker 0, .worker 0, .worker 0]).map
      (fun s => (((s.workers 0).pc, (s.workers 0).pc.pastWait, s.test.counter),
        (s.run, s.run.released, s.run.begun),
        ((s.workers 1).pc, (s.workers 1).pc.registered, s.test.begin_at)))
      = some ((.atomicNext, true, 1), (.create 1, false, false), (.notCreated, false, 0)) := by
  decide

/-- C8: a failing `pthread_create` does not abort the process.  In every
execution in which `pthread_create` fails at some pass of the creation loop,
whatever happens afterwards `HtmrefPerfTest_Run` has not called `abort`, and it
never finds `threads_active == n_threads`: it stays in the creation and polling
loops and reaches neither the `begin_at` nor the `end_at` timestamp. -/
theorem Run_failed_pthread_create_not_fatal (prior : HtmrefPerfTest) (f : HtmrefPerfTestFunc)
    (n_threads n_iterations : Int)
    (hT : 0 < n_threads ∧ n_threads ≤ 2 ^ 31 - 1)
    (hI : 0 < n_iterations ∧ n_iterations ≤ 2 ^ 31 - 1)
    (before after : List Event) (s1 s2 : System) (i : Nat)
    (h1 : execute (initial (HtmrefPerfTest_Init prior f n_threads n_iterations)) before
      = some s1)
    (hpc : s1.run = .create i)
    (h2 : execute s1 (.runFails :: after) = some s2) :
    s2.run ≠ .aborted ∧ s2.run.observed = false ∧ s2.run.begun = false ∧
      s2.run ≠ .stampEnd ∧ s2.run ≠ .returned := by
  have hinv0 := Inv_initial prior f n_threads n_iterations hT hI
  have hinv1 := Inv_execute before hinv0 h1
  simp only [execute] at h2
  split at h2
  · contradiction
  · next s1' hs1' =>
    have hinv1' := Inv_step hinv1 hs1'
    have hcf : CreateFailed s1' := by
      simp only [step, HtmrefPerfTest_Run.step, hpc] at hs1'
      split at hs1'
      · next hi =>
        simp only [Option.some.injEq] at hs1'
        subst hs1'
        exact ⟨i, hi, by simp [RunPc.createIndex],
          hinv1.absent i (by rw [hpc]; exact le_refl _)⟩
      · contradiction
    have hcf2 := CreateFailed_execute after hinv1' hcf h2
    have hinv2 := Inv_execute after hinv1' h2
    have hstuck := CreateFailed_stuck hinv2 hcf2
    refine ⟨hstuck.1, hstuck.2, ?_, ?_, ?_⟩
    · cases hr : s2.run <;> simp_all [RunPc.observed, RunPc.begun]
    · intro e; rw [e] at hstuck; simp [RunPc.observed] at hstuck
    · intro e; rw [e] at hstuck; simp [RunPc.observed] at hstuck

theorem Run_failed_pthread_create_not_fatal_witness :
    (⟨HtmrefPerfTest_Init ⟨false, none, 0, 0, 0, 0, 0, 0, false⟩ .HtmrefPerfTest_Atomic 1 1,
        .pollLock, fun _ => Worker.absent⟩ : System).run ≠ .aborted ∧
      (⟨HtmrefPerfTest_Init ⟨false, none, 0, 0, 0, 0, 0, 0, false⟩ .HtmrefPerfTest_Atomic 1 1,
        .pollLock, fun _ => Worker.absent⟩ : System).run.observed = false :=
  have h := Run_failed_pthread_create_not_fatal ⟨false, none, 0, 0, 0, 0, 0, 0, false⟩
    .HtmrefPerfTest_Atomic 1 1 (by decide) (by decide) [.run] [.run, .run, .run, .run]
    ⟨HtmrefPerfTest_Init ⟨false, none, 0, 0, 0, 0, 0, 0, false⟩ .HtmrefPerfTest_Atomic 1 1,
      .create 0, fun _ => Worker.absent⟩
    ⟨HtmrefPerfTest_Init ⟨false, none, 0, 0, 0, 0, 0, 0, false⟩ .HtmrefPerfTest_Atomic 1 1,
      .pollLock, fun _ => Worker.absent⟩ 0 rfl rfl rfl
  ⟨h.1, h.2.1⟩

/-- A failing `calloc` aborts the process at once, and nothing runs afterwards. -/
theorem Run_failed_calloc_aborts (test : HtmrefPerfTest) :
    (step (initial test) .runFails).map (fun s => s.run) = some .aborted ∧
      ∀ s, step (initial test) .runFails = some s → ∀ ev, step s ev = none := by
  refine ⟨rfl, ?_⟩
  intro s hs ev
  simp only [step, HtmrefPerfTest_Run.step, initial, Option.some.injEq] at hs
  subst hs
  cases ev <;> simp [step, HtmrefPerfTest_Run.step, workerStep, HtmrefPerfTest_ThreadStart.step,
    Worker.absent]

/-! ## Timestamps -/

theorem Run_step_stamps {s s' : System} {ev : Event}
    (h : HtmrefPerfTest_Run.step s ev = some s') :
    (∃ ts, ev = .runClock ts ∧ s.run.stamps = 0 ∧ s'.run.stamps = 1 ∧
        s'.test.begin_at = Clock_GetMonotonic ts) ∨
      (∃ ts, ev = .runClock ts ∧ s.run.stamps = 1 ∧ s'.run.stamps = 2 ∧
        s'.test.begin_at = s.test.begin_at ∧ s'.test.end_at = Clock_GetMonotonic ts) ∨
      (clockReadings [ev] = [] ∧ s'.run.stamps = s.run.stamps ∧
        s'.test.begin_at = s.test.begin_at ∧ s'.test.end_at = s.test.end_at) := by
  obtain ⟨test, run, workers⟩ := s
  cases run <;> cases ev <;> simp only [HtmrefPerfTest_Run.step] at h <;>
    (try contradiction) <;> (try split at h) <;> (try split at h) <;>
    (try contradiction) <;>
    simp only [Option.some.injEq] at h <;> subst h <;>
    simp [RunPc.stamps, clockReadings]

theorem step_stamps {s s' : System} {ev : Event} (h : step s ev = some s') :
    (∃ ts, ev = .runClock ts ∧ s.run.stamps = 0 ∧ s'.run.stamps = 1 ∧
        s'.test.begin_at = Clock_GetMonotonic ts) ∨
      (∃ ts, ev = .runClock ts ∧ s.run.stamps = 1 ∧ s'.run.stamps = 2 ∧
        s'.test.begin_at = s.test.begin_at ∧ s'.test.end_at = Clock_GetMonotonic ts) ∨
      (clockReadings [ev] = [] ∧ s'.run.stamps = s.run.stamps ∧
        s'.test.begin_at = s.test.begin_at ∧ s'.test.end_at = s.test.end_at) := by
  cases ev with
  | run => exact Run_step_stamps h
  | runFails => exact Run_step_stamps h
  | runClock ts => exact Run_step_stamps h
  | worker k =>
    obtain ⟨t, w, st, hst, ht, hrun, _, _⟩ := workerStep_eq h
    have hf := ThreadStart_step_frame hst
    exact Or.inr (Or.inr ⟨rfl, by rw [hrun], by rw [ht]; exact hf.2.2.2.1,
      by rw [ht]; exact hf.2.2.2.2⟩)
  | spuriousWakeup k =>
    simp only [step] at h
    split at h
    · simp only [Option.some.injEq] at h
      subst h
      exact Or.inr (Or.inr ⟨rfl, rfl, rfl, rfl⟩)
    · contradiction
  | txAbort k =>
    simp only [step] at h
    split at h
    · simp only [Option.some.injEq] at h
      subst h
      exact Or.inr (Or.inr ⟨rfl, rfl, rfl, rfl⟩)
    · contradiction

theorem clockReadings_cons (ev : Event) (rest : List Event) :
    clockReadings (ev :: rest) = clockReadings [ev] ++ clockReadings rest := by
  cases ev <;> simp [clockReadings]

theorem Stamped_step {s s' : System} {ev : Event} {readings : List Timespec}
    (hs : Stamped s readings) (h : step s ev = some s') :
    Stamped s' (readings ++ clockReadings [ev]) := by
  obtain ⟨h0, h1, h2⟩ := hs
  rcases step_stamps h with ⟨ts, rfl, e0, e1, eb⟩ | ⟨ts, rfl, e1, e2, eb, ee⟩ | ⟨er, es, eb, ee⟩
  · refine ⟨fun c => ?_, fun _ => ?_, fun c => ?_⟩
    · omega
    · exact ⟨ts, by simp [h0 e0, clockReadings], eb⟩
    · omega
  · refine ⟨fun c => ?_, fun c => ?_, fun _ => ?_⟩
    · omega
    · omega
    · obtain ⟨first, hr, hb⟩ := h1 e1
      exact ⟨first, ts, by simp [hr, clockReadings], by rw [eb, hb], ee⟩
  · rw [er, List.append_nil]
    refine ⟨fun c => h0 (by omega), fun c => ?_, fun c => ?_⟩
    · obtain ⟨first, hr, hb⟩ := h1 (by omega)
      exact ⟨first, hr, by rw [eb, hb]⟩
    · obtain ⟨first, second, hr, hb, he⟩ := h2 (by omega)
      exact ⟨first, second, hr, by rw [eb, hb], by rw [ee, he]⟩

theorem Stamped_execute (events : List Event) :
    ∀ {s s' : System} {readings : List Timespec}, Stamped s readings →
      execute s events = some s' → Stamped s' (readings ++ clockReadings events) := by
  induction events with
  | nil =>
    intro s s' readings hs h
    simp only [execute, Option.some.injEq] at h
    subst h
    simpa [clockReadings] using hs
  | cons ev rest ih =>
    intro s s' readings hs h
    simp only [execute] at h
    split at h
    · contradiction
    · next s1 hs1 =>
      have := ih (Stamped_step hs hs1) h
      rw [clockReadings_cons, ← List.append_assoc]
      exact this

theorem Run_timestamps (test : HtmrefPerfTest) (events : List Event) (s : System)
    (h : execute (initial test) events = some s) (hret : s.run = .returned) :
    ∃ first second, clockReadings events = [first, second] ∧
      s.test.begin_at = Clock_GetMonotonic first ∧ s.test.end_at = Clock_GetMonotonic second := by
  have h0 : Stamped (initial test) [] :=
    ⟨fun _ => rfl, fun c => by simp [initial, RunPc.stamps] at c,
      fun c => by simp [initial, RunPc.stamps] at c⟩
  have := (Stamped_execute events h0 h).2.2 (by rw [hret]; rfl)
  simpa using this

/-- C10: the conversion of `Clock_GetMonotonic` is monotone: for two readings
with `0 ≤ tv_nsec < 10^9`, `tv_sec ≥ 0` and a microsecond value that fits in 64
bits, a reading that is lexicographically no later yields a microsecond value
that is no larger; so every run of `HtmrefPerfTest_Run` that returns, having
read the clock first as the one and then as the other, has
`end_at ≥ begin_at`. -/
theorem Clock_GetMonotonic_monotone (first second : Timespec)
    (hs1 : 0 ≤ first.tv_sec) (hn1 : 0 ≤ first.tv_nsec ∧ first.tv_nsec < 1000000000)
    (hs2 : 0 ≤ second.tv_sec) (hn2 : 0 ≤ second.tv_nsec ∧ second.tv_nsec < 1000000000)
    (hfit1 : first.tv_sec * 1000000 + first.tv_nsec / 1000 < 2 ^ 63)
    (hfit2 : second.tv_sec * 1000000 + second.tv_nsec / 1000 < 2 ^ 63)
    (hle : first.tv_sec < second.tv_sec ∨
      (first.tv_sec = second.tv_sec ∧ first.tv_nsec ≤ second.tv_nsec)) :
    Clock_GetMonotonic first ≤ Clock_GetMonotonic second ∧
      ∀ (test : HtmrefPerfTest) (events : List Event) (s : System),
        execute (initial test) events = some s → s.run = .returned →
        clockReadings events = [first, second] → s.test.begin_at ≤ s.test.end_at := by
  have key : Clock_GetMonotonic first ≤ Clock_GetMonotonic second := by
    rw [Clock_GetMonotonic_eq first hs1 hn1.1 hfit1,
      Clock_GetMonotonic_eq second hs2 hn2.1 hfit2]
    omega
  refine ⟨key, ?_⟩
  intro test events s h hret hr
  obtain ⟨a, b, hab, hb, he⟩ := Run_timestamps test events s h hret
  rw [hr] at hab
  simp only [List.cons.injEq, and_true] at hab
  rw [hb, he, ← hab.1, ← hab.2]
  exact key

theorem Clock_GetMonotonic_monotone_witness :
    Clock_GetMonotonic ⟨5, 999999999⟩ ≤ Clock_GetMonotonic ⟨6, 0⟩ :=
  (Clock_GetMonotonic_monotone ⟨5, 999999999⟩ ⟨6, 0⟩ (by decide) (by decide) (by decide)
    (by decide) (by decide) (by decide) (Or.inl (by decide))).1

end Htmref
